import Mathlib

/-!
Verification development for the ethos ingestion/analysis pipeline.

The definitions below are a shallow embedding of the backend's ingestion
service (`src/backend/src/services/ingestion.ts`), its LLM client
(`openrouter.ts`, the unnamed source part holding `withRetry`,
`parseJsonResponse` and `ANALYSIS_VERSION`) and the data model
(`models/Story.ts`, `models/Comment.ts`).  Strings are modelled as lists of
characters; asynchronous external effects (Hacker News fetches, LLM calls,
embedding calls) are supplied as explicit oracle inputs, so every operation
of the pipeline becomes a pure, executable function on an explicit state.
-/

/-- Model of a JavaScript string: a list of characters. -/
abbrev Str := List Char

/-- Convert a Lean string literal into the model representation. -/
def str (s : String) : Str := s.toList

/-- Decimal rendering of a natural number, used for template literals such
as `story ${hnId}`. -/
def natStr (n : Nat) : Str := (toString n).toList

/-- Opening curly brace character (written via its code point). -/
def obr : Char := Char.ofNat 123

/-- Closing curly brace character (written via its code point). -/
def cbr : Char := Char.ofNat 125

/-- Apostrophe character (written via its code point). -/
def apos : Char := Char.ofNat 39

/-- The character class matched by the JavaScript regular-expression
escape `\s` (WhiteSpace plus LineTerminator); this is also the set of
characters removed by `String.prototype.trim`. -/
def isJsWs (c : Char) : Bool :=
  c == ' ' || c == '\t' || c == '\n' || c == '\r' ||
  c.toNat == 11 || c.toNat == 12 || c.toNat == 160 || c.toNat == 0x1680 ||
  (decide (0x2000 ≤ c.toNat) && decide (c.toNat ≤ 0x200a)) ||
  c.toNat == 0x2028 || c.toNat == 0x2029 || c.toNat == 0x202f ||
  c.toNat == 0x205f || c.toNat == 0x3000 || c.toNat == 0xfeff

/-- ASCII uppercase letter test. -/
def isAsciiUpper (c : Char) : Bool :=
  decide (65 ≤ c.toNat) && decide (c.toNat ≤ 90)

/-- Model of `String.prototype.toLowerCase` on a single character,
restricted to the ASCII range (the analysis strings are ASCII). -/
def toLowerChar (c : Char) : Char :=
  if isAsciiUpper c then Char.ofNat (c.toNat + 32) else c

/-- Model of `.replace(/_/g, " ")`: every underscore becomes a space. -/
def replaceUnderscores (l : Str) : Str :=
  l.map (fun c => if c == '_' then ' ' else c)

/-- Worker for `collapseWs`; the flag records whether the previously
scanned character was whitespace (i.e. whether we are inside a run that
has already emitted its single replacement space). -/
def collapseWsAux (prevWs : Bool) : Str → Str
  | [] => []
  | c :: rest =>
    if isJsWs c then
      if prevWs then collapseWsAux true rest
      else ' ' :: collapseWsAux true rest
    else c :: collapseWsAux false rest

/-- Model of `.replace(/\s+/g, " ")`: each maximal run of whitespace
characters is replaced by a single space. -/
def collapseWs (l : Str) : Str := collapseWsAux false l

/-- Model of `String.prototype.trim`: drop JS whitespace from both ends. -/
def trimList (l : Str) : Str :=
  ((l.dropWhile isJsWs).reverse.dropWhile isJsWs).reverse

/-- Whether a character list starts with a JS whitespace character. -/
def headWs : Str → Bool
  | [] => false
  | c :: _ => isJsWs c

/-- No two adjacent characters are both JS whitespace. -/
def noDoubleWs : Str → Bool
  | [] => true
  | [_] => true
  | a :: b :: rest => !(isJsWs a && isJsWs b) && noDoubleWs (b :: rest)

/-- Neither end of the list is a JS whitespace character. -/
def isTrimmedB (l : Str) : Bool := !headWs l && !headWs l.reverse

/-- The normalization shape claimed of stored concept strings: non-empty,
no ASCII uppercase letter, no underscore, no run of two whitespace
characters, and trimmed at both ends. -/
def normalizedStrB (c : Str) : Bool :=
  !c.isEmpty &&
  c.all (fun ch => !isAsciiUpper ch && !(ch == '_')) &&
  noDoubleWs c && isTrimmedB c

/-- Model of one element of `normalizeConcepts` from `ingestion.ts`:
`c.toLowerCase().replace(/_/g, " ").replace(/\s+/g, " ").trim()`. -/
def normalizeConcept (c : Str) : Str :=
  trimList (collapseWs (replaceUnderscores (c.map toLowerChar)))

/-- Model of `normalizeConcepts` from `ingestion.ts`: map the per-string
normalization and drop the strings that became empty. -/
def normalizeConcepts (cs : List Str) : List Str :=
  (cs.map normalizeConcept).filter (fun c => c.length > 0)

/-- Suffix of the input after the first closing angle bracket, if any;
used to model where the regex `<[^>]*>` ends a match. -/
def afterClose : Str → Option Str
  | [] => none
  | c :: rest => if c == '>' then some rest else afterClose rest

/-- Fuel-indexed model of `.replace(/<[^>]*>/g, " ")`: a `<` with some
later `>` is replaced, together with everything up to that first `>`, by
one space; a `<` with no later `>` cannot start a match, and since any
match needs a `>`, the rest of the input is left unchanged.  The fuel is
instantiated with the input length, which each step strictly consumes. -/
def stripTagsFuel : Nat → Str → Str
  | 0, l => l
  | _ + 1, [] => []
  | fuel + 1, c :: rest =>
    if c == '<' then
      match afterClose rest with
      | some after => ' ' :: stripTagsFuel fuel after
      | none => c :: rest
    else c :: stripTagsFuel fuel rest

/-- Fuel-indexed model of `String.prototype.replace` with a global
literal pattern: scan left to right, replacing each non-overlapping
occurrence of `pat` (always non-empty in this development) by `repl`. -/
def replaceAllFuel (pat repl : Str) : Nat → Str → Str
  | 0, l => l
  | _ + 1, [] => []
  | fuel + 1, c :: rest =>
    if pat.isPrefixOf (c :: rest) then
      repl ++ replaceAllFuel pat repl fuel (List.drop pat.length (c :: rest))
    else c :: replaceAllFuel pat repl fuel rest

/-- Replace every occurrence of `pat` by `repl`, left to right. -/
def replaceAllStr (pat repl l : Str) : Str := replaceAllFuel pat repl l.length l

/-- Model of `stripHtml` from `ingestion.ts`: null/undefined map to the
empty string; otherwise tags are replaced by spaces, the six HTML
entities are decoded, whitespace runs are collapsed and the result is
trimmed, in exactly the source's order. -/
def stripHtml (o : Option Str) : Str :=
  match o with
  | none => []
  | some h =>
    let h1 := stripTagsFuel h.length h
    let h2 := replaceAllStr (str "&amp;") (str "&") h1
    let h3 := replaceAllStr (str "&lt;") (str "<") h2
    let h4 := replaceAllStr (str "&gt;") (str ">") h3
    let h5 := replaceAllStr (str "&quot;") (str "\"") h4
    let h6 := replaceAllStr (str "&#x27;") [apos] h5
    let h7 := replaceAllStr (str "&#x2F;") (str "/") h6
    trimList (collapseWs h7)

/-- JSON value, as produced by the model of the JavaScript builtin
`JSON.parse`.  Numbers keep their raw lexeme: the pipeline never computes
with the numeric value, it only stores it. -/
inductive Json
  | jnull
  | jbool (b : Bool)
  | jnum (raw : Str)
  | jstr (s : Str)
  | jarr (elems : List Json)
  | jobj (fields : List (Str × Json))

/-- JSON insignificant whitespace (space, tab, line feed, carriage return). -/
def skipWsJ (l : Str) : Str :=
  l.dropWhile (fun c => c == ' ' || c == '\t' || c == '\n' || c == '\r')

/-- ASCII digit test. -/
def isDigitC (c : Char) : Bool :=
  decide (48 ≤ c.toNat) && decide (c.toNat ≤ 57)

/-- Hexadecimal digit value, for the `\uXXXX` string escape. -/
def hexVal (c : Char) : Option Nat :=
  if isDigitC c then some (c.toNat - 48)
  else if decide (97 ≤ c.toNat) && decide (c.toNat ≤ 102) then some (c.toNat - 87)
  else if decide (65 ≤ c.toNat) && decide (c.toNat ≤ 70) then some (c.toNat - 55)
  else none

/-- Prepend a character to the string being accumulated by `parseStrJ`. -/
def consStr (c : Char) (p : Option (Str × Str)) : Option (Str × Str) :=
  p.map (fun q => (c :: q.1, q.2))

/-- Parse the body of a JSON string (the input starts after the opening
quote); returns the decoded string and the rest of the input.  A `\uXXXX`
escape is decoded as a single character of that code point (no surrogate
pairing, which no input of this development uses). -/
def parseStrJ : Str → Option (Str × Str)
  | [] => none
  | c :: rest =>
    if c == '"' then some ([], rest)
    else if c == '\\' then
      match rest with
      | [] => none
      | e :: r =>
        if e == '"' then consStr '"' (parseStrJ r)
        else if e == '\\' then consStr '\\' (parseStrJ r)
        else if e == '/' then consStr '/' (parseStrJ r)
        else if e == 'b' then consStr (Char.ofNat 8) (parseStrJ r)
        else if e == 'f' then consStr (Char.ofNat 12) (parseStrJ r)
        else if e == 'n' then consStr '\n' (parseStrJ r)
        else if e == 'r' then consStr '\r' (parseStrJ r)
        else if e == 't' then consStr '\t' (parseStrJ r)
        else if e == 'u' then
          match r with
          | h1 :: h2 :: h3 :: h4 :: r2 =>
            match hexVal h1, hexVal h2, hexVal h3, hexVal h4 with
            | some a, some b, some c2, some d =>
              consStr (Char.ofNat (((a * 16 + b) * 16 + c2) * 16 + d)) (parseStrJ r2)
            | _, _, _, _ => none
          | _ => none
        else none
    else if decide (c.toNat < 32) then none
    else consStr c (parseStrJ rest)

/-- Split a string into its leading run of digits and the rest. -/
def spanDigits (l : Str) : Str × Str := (l.takeWhile isDigitC, l.dropWhile isDigitC)

/-- Parse an optional JSON fraction part. -/
def parseFracJ : Str → Option (Str × Str)
  | [] => some ([], [])
  | c :: r =>
    if c == '.' then
      match spanDigits r with
      | ([], _) => none
      | (ds, rest) => some ('.' :: ds, rest)
    else some ([], c :: r)

/-- Parse an optional JSON exponent part. -/
def parseExpJ : Str → Option (Str × Str)
  | [] => some ([], [])
  | c :: r =>
    if c == 'e' || c == 'E' then
      let sr : Str × Str :=
        match r with
        | s :: r2 => if s == '+' || s == '-' then ([s], r2) else ([], s :: r2)
        | [] => ([], [])
      match spanDigits sr.2 with
      | ([], _) => none
      | (ds, rest) => some (c :: (sr.1 ++ ds), rest)
    else some ([], c :: r)

/-- Parse a JSON number lexeme: optional minus, integer part with no
leading zero, optional fraction, optional exponent. -/
def parseNumJ (l : Str) : Option (Str × Str) :=
  let nl : Str × Str :=
    match l with
    | c :: r => if c == '-' then (['-'], r) else ([], c :: r)
    | [] => ([], [])
  match nl.2 with
  | [] => none
  | c :: r =>
    let ip? : Option (Str × Str) :=
      if c == '0' then some (['0'], r)
      else if isDigitC c then
        match spanDigits r with
        | (ds, rest) => some (c :: ds, rest)
      else none
    match ip? with
    | none => none
    | some (ip, r2) =>
      match parseFracJ r2 with
      | none => none
      | some (fp, r3) =>
        match parseExpJ r3 with
        | none => none
        | some (ep, r4) => some (nl.1 ++ ip ++ fp ++ ep, r4)

mutual

/-- Parse one JSON value; the fuel is at least the input length plus one,
and every recursive step first consumes at least one character. -/
def parseValueJ : Nat → Str → Option (Json × Str)
  | 0, _ => none
  | fuel + 1, l =>
    match skipWsJ l with
    | [] => none
    | c :: rest =>
      if c == obr then parseObjJ fuel rest
      else if c == '[' then parseArrJ fuel rest
      else if c == '"' then (parseStrJ rest).map (fun p => (Json.jstr p.1, p.2))
      else if c == 't' then
        if rest.take 3 = str "rue" then some (Json.jbool true, rest.drop 3) else none
      else if c == 'f' then
        if rest.take 4 = str "alse" then some (Json.jbool false, rest.drop 4) else none
      else if c == 'n' then
        if rest.take 3 = str "ull" then some (Json.jnull, rest.drop 3) else none
      else if c == '-' || isDigitC c then
        (parseNumJ (c :: rest)).map (fun p => (Json.jnum p.1, p.2))
      else none

/-- Parse a JSON object; the input starts after the opening brace. -/
def parseObjJ : Nat → Str → Option (Json × Str)
  | 0, _ => none
  | fuel + 1, l =>
    match skipWsJ l with
    | c :: rest =>
      if c == cbr then some (Json.jobj [], rest)
      else if c == '"' then
        match parseStrJ rest with
        | none => none
        | some (key, r2) => parseMemberTail fuel key r2 []
      else none
    | [] => none

/-- Parse `: value` after an object key, then either the closing brace or
a comma followed by the next key. -/
def parseMemberTail : Nat → Str → Str → List (Str × Json) → Option (Json × Str)
  | 0, _, _, _ => none
  | fuel + 1, key, l, acc =>
    match skipWsJ l with
    | c :: rest =>
      if c == ':' then
        match parseValueJ fuel rest with
        | none => none
        | some (v, r2) =>
          match skipWsJ r2 with
          | d :: r3 =>
            if d == cbr then some (Json.jobj (acc ++ [(key, v)]), r3)
            else if d == ',' then
              match skipWsJ r3 with
              | e :: r4 =>
                if e == '"' then
                  match parseStrJ r4 with
                  | none => none
                  | some (key2, r5) => parseMemberTail fuel key2 r5 (acc ++ [(key, v)])
                else none
              | [] => none
            else none
          | [] => none
      else none
    | [] => none

/-- Parse a JSON array; the input starts after the opening bracket. -/
def parseArrJ : Nat → Str → Option (Json × Str)
  | 0, _ => none
  | fuel + 1, l =>
    match skipWsJ l with
    | c :: rest =>
      if c == ']' then some (Json.jarr [], rest)
      else
        match parseValueJ fuel (c :: rest) with
        | none => none
        | some (v, r2) => parseArrTail fuel r2 [v]
    | [] => none

/-- Parse `, value ... ]` after the first array element. -/
def parseArrTail : Nat → Str → List Json → Option (Json × Str)
  | 0, _, _ => none
  | fuel + 1, l, acc =>
    match skipWsJ l with
    | c :: rest =>
      if c == ']' then some (Json.jarr acc, rest)
      else if c == ',' then
        match parseValueJ fuel rest with
        | none => none
        | some (v, r2) => parseArrTail fuel r2 (acc ++ [v])
      else none
    | [] => none

end

/-- Model of the JavaScript builtin `JSON.parse`: parse one value and
require only whitespace to remain. -/
def jsonParse (l : Str) : Option Json :=
  match parseValueJ (l.length + 1) l with
  | some (j, rest) => if skipWsJ rest = [] then some j else none
  | none => none

/-- Model of the regex match `content.match(/\{[\s\S]*\})/` used by
`parseJsonResponse`: the regex is greedy, so a match runs from the first
opening brace to the last closing brace after it (or fails if there is no
such pair). -/
def braceMatchGreedy (l : Str) : Option Str :=
  match l.dropWhile (fun c => !(c == obr)) with
  | [] => none
  | _ :: rest =>
    match rest.reverse.dropWhile (fun c => !(c == cbr)) with
    | [] => none
    | revTail => some (obr :: revTail.reverse)

/-- Balanced-brace scan: consume characters after an opening brace,
tracking nesting depth, and return everything up to the brace that closes
the initial one. -/
def balancedScan : Nat → Str → Str → Option Str
  | _, _, [] => none
  | depth, acc, c :: rest =>
    if c == obr then balancedScan (depth + 1) (acc ++ [c]) rest
    else if c == cbr then
      if depth = 1 then some (acc ++ [c])
      else balancedScan (depth - 1) (acc ++ [c]) rest
    else balancedScan depth (acc ++ [c]) rest

/-- Written from the specification's words: the first balanced curly-brace
substring of the text, i.e. the span from the first opening brace to its
matching closing brace. -/
def firstBalancedSub (l : Str) : Option Str :=
  match l.dropWhile (fun c => !(c == obr)) with
  | [] => none
  | c :: rest => balancedScan 1 [c] rest

/-- The two failure modes of `parseJsonResponse`: a `SyntaxError` thrown
by `JSON.parse` on the extracted substring (which propagates uncaught),
and the function's own error carrying the first 200 characters of the
content. -/
inductive ParseErr
  | syntaxError
  | failedToParse (head : Str)
deriving DecidableEq, Repr

/-- Model of `parseJsonResponse` from the LLM client: strict `JSON.parse`
first; on failure, extract the greedy `{...}` regex match and parse that;
with no match, throw the descriptive error. -/
def parseJsonResponse (content : Str) : Except ParseErr Json :=
  match jsonParse content with
  | some j => Except.ok j
  | none =>
    match braceMatchGreedy content with
    | some sub =>
      match jsonParse sub with
      | some j => Except.ok j
      | none => Except.error ParseErr.syntaxError
    | none => Except.error (ParseErr.failedToParse (content.take 200))

/-- Error shape of a failed HTTP call as inspected by `withRetry`:
the response status (if any), the `error.metadata.provider_name` field of
the error body (if any), and the `retry-after` header in seconds (0 when
the header is absent, matching `parseInt(headers["retry-after"] || "0")`). -/
structure ApiErr where
  status : Option Nat
  providerName : Option Str
  retryAfterSecs : Nat
deriving DecidableEq, Repr

/-- Truthiness of `error.metadata.provider_name` in the error body. -/
def providerTruthy (e : ApiErr) : Bool :=
  match e.providerName with
  | some p => !p.isEmpty
  | none => false

/-- The `status && status >= 500` test of `withRetry` (a truthy status
that is at least 500). -/
def is5xx (st : Option Nat) : Bool :=
  match st with
  | some s => decide (500 ≤ s)
  | none => false

/-- Model of the retry loop of `withRetry` from the LLM client.  The
oracle `calls` gives the outcome of the HTTP call on each attempt; the
returned list records the waits (in milliseconds) taken between attempts,
and the `Except` is the final outcome (a propagated error models the
rethrow). -/
def withRetryGo {α : Type} (calls : Nat → Except ApiErr α) (maxRetries : Nat)
    (attempt : Nat) (delays : List Nat) : List Nat × Except ApiErr α :=
  match calls attempt with
  | Except.ok v => (delays, Except.ok v)
  | Except.error e =>
    if h1 : e.status = some 400 ∧ providerTruthy e = true ∧ attempt < maxRetries then
      withRetryGo calls maxRetries (attempt + 1) (delays ++ [2000 * (attempt + 1)])
    else if h2 : e.status = some 429 ∧ attempt < maxRetries then
      withRetryGo calls maxRetries (attempt + 1)
        (delays ++ [max (e.retryAfterSecs * 1000) (3000 * 2 ^ attempt)])
    else if h3 : is5xx e.status = true ∧ attempt < maxRetries then
      withRetryGo calls maxRetries (attempt + 1) (delays ++ [2000 * 2 ^ attempt])
    else (delays, Except.error e)
termination_by maxRetries + 1 - attempt
decreasing_by
  · obtain ⟨-, -, h⟩ := h1; omega
  · obtain ⟨-, h⟩ := h2; omega
  · obtain ⟨-, h⟩ := h3; omega

/-- The default attempt cap of `withRetry` (`maxRetries: number = 4`). -/
def maxRetriesDefault : Nat := 4

/-- Model of `withRetry` at its default cap. -/
def withRetry {α : Type} (calls : Nat → Except ApiErr α) : List Nat × Except ApiErr α :=
  withRetryGo calls maxRetriesDefault 0 []

/-- One row of the retry decision table. -/
inductive RetryDecision
  | retryAfter (delayMs : Nat)
  | failNow
deriving DecidableEq, Repr

/-- The retry policy as the specification words it, keyed by status code
and presence of provider metadata: below the attempt cap, HTTP 429 waits
the maximum of the server's Retry-After and an exponential backoff; an
HTTP server error (5xx) waits an exponential backoff; a 400 whose error
body names an upstream sub-provider waits a linear backoff; anything
else, or cap exhaustion, is a hard failure. -/
def retryDecisionTable (cap attempt : Nat) (e : ApiErr) : RetryDecision :=
  if attempt < cap then
    match e.status with
    | some st =>
      if st = 429 then
        RetryDecision.retryAfter (max (e.retryAfterSecs * 1000) (3000 * 2 ^ attempt))
      else if 500 ≤ st then RetryDecision.retryAfter (2000 * 2 ^ attempt)
      else if st = 400 ∧ providerTruthy e = true then
        RetryDecision.retryAfter (2000 * (attempt + 1))
      else RetryDecision.failNow
    | none => RetryDecision.failNow
  else RetryDecision.failNow

/-- Reference retry loop driven by the specification's decision table. -/
def specRetryGo {α : Type} (calls : Nat → Except ApiErr α) (cap : Nat)
    (attempt : Nat) (delays : List Nat) : List Nat × Except ApiErr α :=
  match calls attempt with
  | Except.ok v => (delays, Except.ok v)
  | Except.error e =>
    if h : attempt < cap then
      match retryDecisionTable cap attempt e with
      | RetryDecision.retryAfter d => specRetryGo calls cap (attempt + 1) (delays ++ [d])
      | RetryDecision.failNow => (delays, Except.error e)
    else (delays, Except.error e)
termination_by cap + 1 - attempt
decreasing_by
  · omega

/-- The module-level analysis schema version tag (`ANALYSIS_VERSION = "6"`). -/
def ANALYSIS_VERSION : Str := str "6"

/-- An embedding vector.  Component values are carried opaquely (the
pipeline stores them but never computes with them). -/
abbrev Emb := List Rat

/-- An item as returned by the Hacker News API (`{id, type, by, time,
text?, url?, title?, score?, descendants?, kids?, parent?, deleted?,
dead?}`).  The `by` field is named `byUser` because `by` is reserved. -/
structure HNItem where
  id : Nat
  type : Str
  byUser : Option Str
  time : Int
  text : Option Str
  url : Option Str
  title : Option Str
  score : Option Nat
  descendants : Option Nat
  kids : List Nat
  parent : Option Nat
  deleted : Bool
  dead : Bool
deriving DecidableEq, Repr

/-- Structured story analysis as typed in the LLM client. -/
structure StoryAnalysis where
  core_idea : Str
  concepts : List Str
  technologies : List Str
  entities : List Str
  community_angle : Str
  sentiment : Str
  sentiment_score : Rat
  controversy_potential : Str
  intellectual_depth : Str
deriving DecidableEq, Repr

/-- Structured comment analysis as typed in the LLM client. -/
structure CommentAnalysis where
  argument_summary : Str
  concepts : List Str
  technologies : List Str
  entities : List Str
  comment_type : Str
  sentiment : Str
  sentiment_score : Rat
deriving DecidableEq, Repr

/-- A row of the `stories` table (`models/Story.ts`); analysis columns are
nullable and `embedded` defaults to `false`. -/
structure StoryRec where
  hnId : Nat
  title : Str
  url : Option Str
  text : Option Str
  byUser : Str
  score : Nat
  time : Int
  descendants : Nat
  coreIdea : Option Str
  concepts : List Str
  technologies : List Str
  entities : List Str
  communityAngle : Option Str
  sentiment : Option Str
  sentimentScore : Option Rat
  controversyPotential : Option Str
  intellectualDepth : Option Str
  analysisVersion : Option Str
  embedded : Bool
  processedAt : Option Int
deriving DecidableEq, Repr

/-- A row of the `comments` table (`models/Comment.ts`). -/
structure CommentRec where
  hnId : Nat
  storyHnId : Nat
  parentHnId : Option Nat
  text : Option Str
  byUser : Option Str
  time : Int
  argumentSummary : Option Str
  concepts : List Str
  technologies : List Str
  entities : List Str
  commentType : Option Str
  sentiment : Option Str
  sentimentScore : Option Rat
  analysisVersion : Option Str
  embedded : Bool
  processedAt : Option Int
deriving DecidableEq, Repr

/-- The summary a cycle returns (`lastRunResult` shape).  `ingested`
counts the candidates classified `new`. -/
structure CycleSummary where
  ingested : Nat
  skipped : Nat
  tooOld : Nat
  errors : Nat
  commentsProcessed : Nat
  newComments : Nat
deriving DecidableEq, Repr

/-- The process-wide `workerState` object. -/
structure WorkerState where
  running : Bool
  lastRunAt : Option Int
  lastRunResult : Option CycleSummary
  totalProcessed : Nat
  totalEmbedded : Nat
  currentlyProcessing : Option Str
  cycleStartedAt : Option Int
  cycleTotal : Nat
  cycleCurrent : Nat
  cyclePhase : Option Str
  errors : List Str
deriving DecidableEq, Repr

/-- The relational store: the two tables, as lists of rows in insertion
order. -/
structure DBState where
  stories : List StoryRec
  comments : List CommentRec
deriving DecidableEq, Repr

/-- The whole mutable world the pipeline acts on: the item store, the
worker state, and the two vector-index collections (modelled as upsert
logs of id/vector pairs). -/
structure SysState where
  db : DBState
  ws : WorkerState
  chromaStories : List (Nat × Emb)
  chromaComments : List (Nat × Emb)
deriving DecidableEq, Repr

/-- The environment-derived configuration constants of `ingestion.ts`. -/
structure Config where
  maxAgeHours : Int
  maxStories : Nat
  maxCommentsPerStory : Nat
  newCommentsBatch : Nat
deriving DecidableEq, Repr

/-- JavaScript `a || d` for an optional number (0 and absent are falsy). -/
def jsOrNat (o : Option Nat) (d : Nat) : Nat :=
  match o with
  | some n => if n = 0 then d else n
  | none => d

/-- JavaScript `a || d` for an optional string (empty and absent are falsy). -/
def jsOrStr (o : Option Str) (d : Str) : Str :=
  match o with
  | some s => if s.isEmpty then d else s
  | none => d

/-- JavaScript `a || null` for an optional string. -/
def jsToNullStr (o : Option Str) : Option Str :=
  match o with
  | some s => if s.isEmpty then none else some s
  | none => none

/-- JavaScript truthiness of an optional id (`x ? ... : null`, with 0 falsy). -/
def jsTruthyNat (o : Option Nat) : Option Nat :=
  match o with
  | some n => if n = 0 then none else some n
  | none => none

/-- Model of `isRecent` from `ingestion.ts`: the age in milliseconds
relative to the current wall clock is at most the configured maximum. -/
def isRecent (cfg : Config) (now : Int) (unixTime : Int) : Bool :=
  decide (now - unixTime * 1000 ≤ cfg.maxAgeHours * 60 * 60 * 1000)

/-- The oracle for one candidate story: the `hn.fetchItem` result and the
outcomes of the analysis and embedding calls made for it. -/
structure StoryEnv where
  fetched : Option HNItem
  analysis : Except Str StoryAnalysis
  embedding : Except Str Emb
deriving Repr

/-- The oracle for one comment: the outcomes of its analysis and
embedding calls. -/
structure CommentEnv where
  analysis : Except Str CommentAnalysis
  embedding : Except Str Emb
deriving Repr

/-- The oracle for a whole ingestion cycle: the two id listings, the
per-candidate story oracles, the child fetches, the per-comment oracles
and the wall-clock time. -/
structure CycleEnv where
  topIds : List Nat
  newIds : List Nat
  story : Nat → StoryEnv
  child : Nat → Option HNItem
  comm : Nat → CommentEnv
  now : Int

/-- Look a story up by source id (`Story.findOne({ where: { hnId } })`). -/
def findStory (db : DBState) (hnId : Nat) : Option StoryRec :=
  db.stories.find? (fun r => r.hnId == hnId)

/-- Look a comment up by source id. -/
def findComment (db : DBState) (hnId : Nat) : Option CommentRec :=
  db.comments.find? (fun r => r.hnId == hnId)

/-- Whether a comment row with this source id exists (the uniqueness
constraint consulted on insert). -/
def commentExists (db : DBState) (hnId : Nat) : Bool :=
  (findComment db hnId).isSome

/-- Number of stored story rows carrying this source id. -/
def storyCount (db : DBState) (hnId : Nat) : Nat :=
  (db.stories.filter (fun r => r.hnId == hnId)).length

/-- Number of stored comment rows carrying this source id. -/
def commentCount (db : DBState) (hnId : Nat) : Nat :=
  (db.comments.filter (fun r => r.hnId == hnId)).length

/-- Apply an instance update to the story row with the given id. -/
def updateStoryDb (s : SysState) (hnId : Nat) (f : StoryRec → StoryRec) : SysState :=
  { s with db := { s.db with stories := s.db.stories.map (fun r => if r.hnId == hnId then f r else r) } }

/-- Apply an instance update to the comment row with the given id. -/
def updateCommentDb (s : SysState) (hnId : Nat) (f : CommentRec → CommentRec) : SysState :=
  { s with db := { s.db with comments := s.db.comments.map (fun r => if r.hnId == hnId then f r else r) } }

/-- Insert a story row (`Story.create`). -/
def addStoryDb (s : SysState) (r : StoryRec) : SysState :=
  { s with db := { s.db with stories := s.db.stories ++ [r] } }

/-- Insert a comment row (`Comment.create`). -/
def addCommentDb (s : SysState) (r : CommentRec) : SysState :=
  { s with db := { s.db with comments := s.db.comments ++ [r] } }

/-- Model of the bounded error ring: push at the end, and drop the oldest
entry when the length exceeds 50. -/
def pushErrList (errs : List Str) (e : Str) : List Str :=
  let e2 := errs ++ [e]
  if e2.length > 50 then e2.drop 1 else e2

/-- Push onto `workerState.errors` with the ring bound. -/
def pushErr (s : SysState) (e : Str) : SysState :=
  { s with ws := { s.ws with errors := pushErrList s.ws.errors e } }

/-- Increment `workerState.totalProcessed`. -/
def incTotalProcessed (s : SysState) : SysState :=
  { s with ws := { s.ws with totalProcessed := s.ws.totalProcessed + 1 } }

/-- Increment `workerState.totalEmbedded`. -/
def incTotalEmbedded (s : SysState) : SysState :=
  { s with ws := { s.ws with totalEmbedded := s.ws.totalEmbedded + 1 } }

/-- Set `workerState.currentlyProcessing`. -/
def setCurrentlyProcessing (s : SysState) (v : Option Str) : SysState :=
  { s with ws := { s.ws with currentlyProcessing := v } }

/-- Increment `workerState.cycleCurrent`. -/
def incCycleCurrent (s : SysState) : SysState :=
  { s with ws := { s.ws with cycleCurrent := s.ws.cycleCurrent + 1 } }

/-- Record a story embedding in the vector index
(`chroma.addStoryEmbedding`; the metadata payload is not modelled). -/
def addChromaStory (s : SysState) (id : Nat) (e : Emb) : SysState :=
  { s with chromaStories := s.chromaStories ++ [(id, e)] }

/-- Record a comment embedding in the vector index. -/
def addChromaComment (s : SysState) (id : Nat) (e : Emb) : SysState :=
  { s with chromaComments := s.chromaComments ++ [(id, e)] }

/-- Classification of one candidate by `processStoryOnly`. -/
inductive StoryResult
  | new
  | cached
  | too_old
  | error
deriving DecidableEq, Repr

/-- The `Story.create` payload built from a fetched item: identity and
volatile fields from the item, analysis columns at their defaults. -/
def mkStoryRec (item : HNItem) : StoryRec :=
  { hnId := item.id
    title := jsOrStr item.title []
    url := jsToNullStr item.url
    text := jsToNullStr item.text
    byUser := jsOrStr item.byUser (str "unknown")
    score := jsOrNat item.score 0
    time := item.time
    descendants := jsOrNat item.descendants 0
    coreIdea := none
    concepts := []
    technologies := []
    entities := []
    communityAngle := none
    sentiment := none
    sentimentScore := none
    controversyPotential := none
    intellectualDepth := none
    analysisVersion := none
    embedded := false
    processedAt := none }

/-- The text submitted to story analysis:
`` `${item.title || ""} ${stripHtml(item.text)}`.trim() ``. -/
def storyTextForAnalysis (item : HNItem) : Str :=
  trimList (jsOrStr item.title [] ++ [' '] ++ stripHtml item.text)

/-- The ring-buffer entry written when analyzing a story fails:
`` `story ${hnId}: ${err?.message || "unknown"}` ``. -/
def analysisErrEntry (hnId : Nat) (msg : Str) : Str :=
  str "story " ++ natStr hnId ++ str ": " ++ (if msg.isEmpty then str "unknown" else msg)

/-- The `story.update` payload after a successful analysis: all analysis
columns, with `embedded := true` and `analysisVersion := ANALYSIS_VERSION`
written in the same update (`analysis.core_idea || ""` and
`analysis.community_angle || ""` leave an empty string unchanged, so they
are recorded as given). -/
def storyAnalysisUpdate (a : StoryAnalysis) (now : Int) (r : StoryRec) : StoryRec :=
  { r with
    coreIdea := some a.core_idea
    concepts := normalizeConcepts a.concepts
    technologies := a.technologies
    entities := a.entities
    communityAngle := some a.community_angle
    sentiment := some a.sentiment
    sentimentScore := some a.sentiment_score
    controversyPotential := some a.controversy_potential
    intellectualDepth := some a.intellectual_depth
    analysisVersion := some ANALYSIS_VERSION
    embedded := true
    processedAt := some now }

/-- The `existing.update` payload refreshing a cached story's volatile
fields (`score: item.score || existing.score`, and likewise for the
descendant count). -/
def storyVolatileUpdate (item : HNItem) (r : StoryRec) : StoryRec :=
  { r with
    score := jsOrNat item.score r.score
    descendants := jsOrNat item.descendants r.descendants }

/-- Model of `processStoryOnly` (pass 1 over one candidate): look the id
up, fetch the item, classify, and either refresh volatile fields or
create the record and run the analyze/normalize/embed/store path, with
analysis failures caught into the error ring. -/
def processStoryOnly (env : StoryEnv) (cfg : Config) (now : Int) (s : SysState) (hnId : Nat) :
    StoryResult × Option HNItem × SysState :=
  let existing := findStory s.db hnId
  match env.fetched with
  | none => ((if existing.isSome then StoryResult.cached else StoryResult.error), none, s)
  | some item =>
    if !(item.type == str "story") then
      ((if existing.isSome then StoryResult.cached else StoryResult.error), none, s)
    else if !isRecent cfg now item.time then (StoryResult.too_old, some item, s)
    else
      match existing with
      | some _ =>
        (StoryResult.cached, some item, updateStoryDb s hnId (storyVolatileUpdate item))
      | none =>
        let s1 := setCurrentlyProcessing s (some (jsOrStr item.title (str "story " ++ natStr hnId)))
        let s2 := addStoryDb s1 (mkStoryRec item)
        let s3 :=
          if (storyTextForAnalysis item).length > 0 then
            match env.analysis with
            | Except.error msg => pushErr s2 (analysisErrEntry hnId msg)
            | Except.ok a =>
              match env.embedding with
              | Except.error msg => pushErr s2 (analysisErrEntry hnId msg)
              | Except.ok emb =>
                incTotalEmbedded (addChromaStory (updateStoryDb s2 item.id (storyAnalysisUpdate a now)) item.id emb)
          else s2
        (StoryResult.new, some item, incTotalProcessed s3)

/-- The `Comment.create` payload built from a fetched comment item. -/
def mkCommentRec (ci : HNItem) (storyHnId : Nat) : CommentRec :=
  { hnId := ci.id
    storyHnId := storyHnId
    parentHnId := jsTruthyNat ci.parent
    text := jsToNullStr ci.text
    byUser := jsToNullStr ci.byUser
    time := ci.time
    argumentSummary := none
    concepts := []
    technologies := []
    entities := []
    commentType := none
    sentiment := none
    sentimentScore := none
    analysisVersion := none
    embedded := false
    processedAt := none }

/-- The `comment.update` payload after a successful comment analysis,
with `embedded := true` and `analysisVersion := ANALYSIS_VERSION` in the
same update. -/
def commentAnalysisUpdate (a : CommentAnalysis) (concepts : List Str) (now : Int)
    (r : CommentRec) : CommentRec :=
  { r with
    argumentSummary := some a.argument_summary
    concepts := concepts
    technologies := a.technologies
    entities := a.entities
    commentType := some (jsOrStr (some a.comment_type) (str "meta_commentary"))
    sentiment := some a.sentiment
    sentimentScore := some a.sentiment_score
    analysisVersion := some ANALYSIS_VERSION
    embedded := true
    processedAt := some now }

/-- Model of `processComment`: insert the base row (a uniqueness
violation on the source id is caught and reported as `false`), then, for
comments whose stripped text exceeds 30 characters, run the
analyze/normalize/embed/store path; any analysis failure is logged only,
leaving the base row unanalyzed.  The story title and parent context only
feed the LLM prompt, which the oracle already accounts for. -/
def processComment (ce : CommentEnv) (now : Int) (ci : HNItem) (storyHnId : Nat)
    (_storyTitle : Str) (_parentCtx : Option Str) (s : SysState) : Bool × SysState :=
  if commentExists s.db ci.id then (false, s)
  else
    let s1 := addCommentDb s (mkCommentRec ci storyHnId)
    let commentText := stripHtml ci.text
    if commentText.length > 30 then
      match ce.analysis with
      | Except.error _ => (false, s1)
      | Except.ok a =>
        match ce.embedding with
        | Except.error _ => (false, s1)
        | Except.ok emb =>
          let concepts := normalizeConcepts a.concepts
          let s2 := updateCommentDb s1 ci.id (commentAnalysisUpdate a concepts now)
          (true, incTotalEmbedded (addChromaComment s2 ci.id emb))
    else (false, s1)

/-- Lookup in the in-cycle parent-summary map. -/
def parentMapGet (m : List (Nat × Str)) (k : Nat) : Option Str :=
  (m.find? (fun p => p.1 == k)).map (fun p => p.2)

/-- Insert/overwrite in the in-cycle parent-summary map (`Map.set`). -/
def parentMapSet (m : List (Nat × Str)) (k : Nat) (v : Str) : List (Nat × Str) :=
  if (m.find? (fun p => p.1 == k)).isSome then
    m.map (fun p => if p.1 == k then (k, v) else p)
  else m ++ [(k, v)]

/-- The parent context passed to a comment's analysis:
`ci.parent ? parentSummaryMap.get(ci.parent) : undefined`. -/
def parentCtxOf (pmap : List (Nat × Str)) (ci : HNItem) : Option Str :=
  match jsTruthyNat ci.parent with
  | some p => parentMapGet pmap p
  | none => none

/-- The per-story comment loop of `processStoryComments`: skip comments
already present, stop once the per-story new-comment batch cap is
reached, thread the parent-summary map, and count processed and new
comments. -/
def commentsLoop (cenv : CycleEnv) (cfg : Config) (existingSet : List Nat) (storyId : Nat)
    (storyTitle : Str) :
    List HNItem → Nat → Nat → List (Nat × Str) → SysState → Nat × Nat × SysState
  | [], processed, newC, _, s => (processed, newC, s)
  | ci :: rest, processed, newC, pmap, s =>
    if existingSet.contains ci.id then
      commentsLoop cenv cfg existingSet storyId storyTitle rest (processed + 1) newC pmap s
    else if cfg.newCommentsBatch > 0 ∧ newC ≥ cfg.newCommentsBatch then (processed, newC, s)
    else
      let r := processComment (cenv.comm ci.id) cenv.now ci storyId storyTitle (parentCtxOf pmap ci) s
      if r.1 then
        let pmap2 :=
          match (findComment r.2.db ci.id).bind (fun c => c.argumentSummary) with
          | some a => if a.isEmpty then pmap else parentMapSet pmap ci.id a
          | none => pmap
        commentsLoop cenv cfg existingSet storyId storyTitle rest (processed + 1) (newC + 1) pmap2 r.2
      else
        commentsLoop cenv cfg existingSet storyId storyTitle rest (processed + 1) newC pmap r.2

/-- Model of `processStoryComments`: fetch only the direct children,
keep the valid comment items, truncate at the per-story comment cap,
seed the parent-summary map and the already-present set from the store,
and run the loop. -/
def processStoryComments (cenv : CycleEnv) (cfg : Config) (item : HNItem) (s : SysState) :
    Nat × Nat × SysState :=
  if item.kids.isEmpty then (0, 0, s)
  else
    let topLevelItems := item.kids.filterMap cenv.child
    let validComments := topLevelItems.filter
      (fun c => c.type == str "comment" && !c.deleted && !c.dead)
    let toProcess :=
      if cfg.maxCommentsPerStory > 0 then validComments.take cfg.maxCommentsPerStory
      else validComments
    let ids := toProcess.map (fun c => c.id)
    let existingComments := s.db.comments.filter (fun c => ids.contains c.hnId)
    let pmap0 := existingComments.foldl (fun m ec =>
      match ec.argumentSummary with
      | some a => if a.isEmpty then m else parentMapSet m ec.hnId a
      | none => m) []
    let existingSet := existingComments.map (fun c => c.hnId)
    commentsLoop cenv cfg existingSet item.id (jsOrStr item.title []) toProcess 0 0 pmap0 s

/-- First-occurrence de-duplication, the order produced by
`[...new Set([...topIds, ...newIds])]`. -/
def dedupFirstAux (seen : List Nat) : List Nat → List Nat
  | [] => []
  | x :: rest =>
    if seen.contains x then dedupFirstAux seen rest
    else x :: dedupFirstAux (x :: seen) rest

/-- The candidate list of one cycle: merged listings, de-duplicated, and
truncated at `MAX_STORIES` when that is positive. -/
def cycleCandidates (cenv : CycleEnv) (cfg : Config) : List Nat :=
  let uniqueIds := dedupFirstAux [] (cenv.topIds ++ cenv.newIds)
  if cfg.maxStories > 0 then uniqueIds.take cfg.maxStories else uniqueIds

/-- The accumulator of the per-candidate loop of `runIngestionCycle`. -/
structure CycleAcc where
  s : SysState
  ingested : Nat
  skipped : Nat
  tooOld : Nat
  errors : Nat
  commentsProcessed : Nat
  newComments : Nat
deriving DecidableEq, Repr

/-- The `switch (result)` incrementing one of the four cycle counters
(written as one increment per counter, exactly one of which fires). -/
def bumpCounts (acc : CycleAcc) (r : StoryResult) : CycleAcc :=
  { acc with
    ingested := acc.ingested + (if r = StoryResult.new then 1 else 0)
    skipped := acc.skipped + (if r = StoryResult.cached then 1 else 0)
    tooOld := acc.tooOld + (if r = StoryResult.too_old then 1 else 0)
    errors := acc.errors + (if r = StoryResult.error then 1 else 0) }

/-- One iteration of the per-candidate loop: bump the live cycle counter,
run `processStoryOnly`, account its classification, bump
`totalProcessed` for every candidate, and — for a `new` or `cached` story
with an item in hand — immediately process its comments. -/
def cycleStep (cenv : CycleEnv) (cfg : Config) (acc : CycleAcc) (hnId : Nat) : CycleAcc :=
  let s0 := incCycleCurrent acc.s
  let r := processStoryOnly (cenv.story hnId) cfg cenv.now s0 hnId
  let acc1 := bumpCounts { acc with s := incTotalProcessed r.2.2 } r.1
  match r.2.1 with
  | some item =>
    if r.1 = StoryResult.new ∨ r.1 = StoryResult.cached then
      let s1 := setCurrentlyProcessing acc1.s
        (some (str "comments for: " ++ jsOrStr item.title (str "story " ++ natStr item.id)))
      let z := processStoryComments cenv cfg item s1
      { acc1 with
        s := z.2.2
        commentsProcessed := acc1.commentsProcessed + z.1
        newComments := acc1.newComments + z.2.1 }
    else acc1
  | none => acc1

/-- The cycle-progress fields set at the start of `runIngestionCycle`. -/
def setCycleProgress (s : SysState) (total : Nat) : SysState :=
  { s with ws := { s.ws with
      cycleTotal := total
      cycleCurrent := 0
      cyclePhase := some (str "stories+comments") } }

/-- Model of `runIngestionCycle`: build the candidate list, reset the
progress fields, fold the per-candidate step over the candidates in
order, and return the summary. -/
def runIngestionCycle (cenv : CycleEnv) (cfg : Config) (s : SysState) :
    CycleSummary × SysState :=
  let toProcess := cycleCandidates cenv cfg
  let s0 := setCycleProgress s toProcess.length
  let acc := toProcess.foldl (cycleStep cenv cfg)
    { s := s0, ingested := 0, skipped := 0, tooOld := 0, errors := 0,
      commentsProcessed := 0, newComments := 0 }
  ({ ingested := acc.ingested, skipped := acc.skipped, tooOld := acc.tooOld,
     errors := acc.errors, commentsProcessed := acc.commentsProcessed,
     newComments := acc.newComments }, acc.s)

/-- The options of `queueRegeneration`/`runRegeneration`, with the since/
until bounds already converted to unix seconds. -/
structure RegenOptions where
  targetVersion : Option Str
  maxItems : Nat
  rtype : Str
  sinceTs : Option Int
  untilTs : Option Int
deriving DecidableEq, Repr

/-- The oracle for a regeneration run: per-item analysis and embedding
outcomes (keyed by source id) and the wall-clock time. -/
structure RegenEnv where
  storyA : Nat → Except Str StoryAnalysis
  storyE : Nat → Except Str Emb
  commA : Nat → Except Str CommentAnalysis
  commE : Nat → Except Str Emb
  now : Int

/-- `targetVersion || ANALYSIS_VERSION`. -/
def resolveVersion (o : RegenOptions) : Str :=
  match o.targetVersion with
  | some v => if v.isEmpty then ANALYSIS_VERSION else v
  | none => ANALYSIS_VERSION

/-- The optional time window of a regeneration run. -/
def timeOkB (o : RegenOptions) (t : Int) : Bool :=
  (match o.sinceTs with | some lo => decide (lo ≤ t) | none => true) &&
  (match o.untilTs with | some hi => decide (t ≤ hi) | none => true)

/-- The story selection predicate of `runRegeneration`:
`embedded: true` and (`analysisVersion != version` or `analysisVersion
IS NULL`), within the time window; under SQL null semantics the
disjunction is exactly "the stored version is not the target". -/
def storyStale (target : Str) (o : RegenOptions) (r : StoryRec) : Bool :=
  r.embedded && !(r.analysisVersion == some target) && timeOkB o r.time

/-- The comment selection predicate of `runRegeneration`. -/
def commentStale (target : Str) (o : RegenOptions) (r : CommentRec) : Bool :=
  r.embedded && !(r.analysisVersion == some target) && timeOkB o r.time

/-- Insert into a list kept sorted by descending time. -/
def insertTimeDesc {α : Type} (time : α → Int) (x : α) : List α → List α
  | [] => [x]
  | y :: ys => if time x > time y then x :: y :: ys else y :: insertTimeDesc time x ys

/-- Sort by descending time (`order: [["time", "DESC"]]`). -/
def sortTimeDesc {α : Type} (time : α → Int) (l : List α) : List α :=
  l.foldr (insertTimeDesc time) []

/-- The stories a regeneration run selects: stale ones, most recent
first, up to the item cap. -/
def selectStaleStories (o : RegenOptions) (target : Str) (db : DBState) : List StoryRec :=
  (sortTimeDesc (fun r => r.time) (db.stories.filter (storyStale target o))).take o.maxItems

/-- The comments a regeneration run selects. -/
def selectStaleComments (o : RegenOptions) (target : Str) (db : DBState) : List CommentRec :=
  (sortTimeDesc (fun r => r.time) (db.comments.filter (commentStale target o))).take o.maxItems

/-- The `story.update` payload of the regeneration loop.  Note that it
rewrites `analysisVersion` (to the target version) without touching
`embedded`. -/
def regenStoryUpdate (a : StoryAnalysis) (version : Str) (now : Int) (r : StoryRec) : StoryRec :=
  { r with
    coreIdea := some a.core_idea
    concepts := normalizeConcepts a.concepts
    technologies := a.technologies
    entities := a.entities
    communityAngle := some a.community_angle
    sentiment := some a.sentiment
    sentimentScore := some a.sentiment_score
    controversyPotential := some a.controversy_potential
    intellectualDepth := some a.intellectual_depth
    analysisVersion := some version
    processedAt := some now }

/-- The `comment.update` payload of the regeneration loop; it likewise
rewrites `analysisVersion` without touching `embedded`. -/
def regenCommentUpdate (a : CommentAnalysis) (version : Str) (now : Int) (r : CommentRec) : CommentRec :=
  { r with
    argumentSummary := some a.argument_summary
    concepts := normalizeConcepts a.concepts
    technologies := a.technologies
    entities := a.entities
    commentType := some a.comment_type
    sentiment := some a.sentiment
    sentimentScore := some a.sentiment_score
    analysisVersion := some version
    processedAt := some now }

/-- One story of the regeneration batch: re-analyze and re-embed the
snapshot row; a failure appends to the per-run error list and does not
abort the batch.  The accumulator is (stories regenerated, errors,
state). -/
def regenStoryStep (renv : RegenEnv) (version : Str) (acc : Nat × List Str × SysState)
    (story : StoryRec) : Nat × List Str × SysState :=
  match renv.storyA story.hnId with
  | Except.error msg =>
    (acc.1, acc.2.1 ++ [str "story " ++ natStr story.hnId ++ str ": " ++ msg], acc.2.2)
  | Except.ok a =>
    match renv.storyE story.hnId with
    | Except.error msg =>
      (acc.1, acc.2.1 ++ [str "story " ++ natStr story.hnId ++ str ": " ++ msg], acc.2.2)
    | Except.ok emb =>
      let s1 := updateStoryDb acc.2.2 story.hnId (regenStoryUpdate a version renv.now)
      (acc.1 + 1, acc.2.1, addChromaStory s1 story.hnId emb)

/-- One comment of the regeneration batch: comments whose stripped text
is at most 30 characters are skipped (`continue`); the story-title and
parent-context lookups feed only the LLM prompt. -/
def regenCommentStep (renv : RegenEnv) (version : Str) (acc : Nat × List Str × SysState)
    (c : CommentRec) : Nat × List Str × SysState :=
  if (stripHtml c.text).length ≤ 30 then acc
  else
    match renv.commA c.hnId with
    | Except.error msg =>
      (acc.1, acc.2.1 ++ [str "comment " ++ natStr c.hnId ++ str ": " ++ msg], acc.2.2)
    | Except.ok a =>
      match renv.commE c.hnId with
      | Except.error msg =>
        (acc.1, acc.2.1 ++ [str "comment " ++ natStr c.hnId ++ str ": " ++ msg], acc.2.2)
      | Except.ok emb =>
        let s1 := updateCommentDb acc.2.2 c.hnId (regenCommentUpdate a version renv.now)
        (acc.1 + 1, acc.2.1, addChromaComment s1 c.hnId emb)

/-- The tallies a regeneration run reports. -/
structure RegenResult where
  storiesRegenerated : Nat
  commentsRegenerated : Nat
  errors : List Str
deriving DecidableEq, Repr

/-- Model of `runRegeneration`: resolve the target version, select and
regenerate stale stories (when the type filter admits stories), then
stale comments (when it admits comments), accumulating per-item errors. -/
def runRegeneration (o : RegenOptions) (renv : RegenEnv) (s : SysState) :
    RegenResult × SysState :=
  let version := resolveVersion o
  let stRes :=
    if o.rtype == str "all" || o.rtype == str "stories" then
      (selectStaleStories o version s.db).foldl (regenStoryStep renv version) (0, [], s)
    else (0, [], s)
  let cmRes :=
    if o.rtype == str "all" || o.rtype == str "comments" then
      (selectStaleComments o version stRes.2.2.db).foldl (regenCommentStep renv version)
        (0, stRes.2.1, stRes.2.2)
    else (0, stRes.2.1, stRes.2.2)
  ({ storiesRegenerated := stRes.1, commentsRegenerated := cmRes.1, errors := cmRes.2.1 },
    cmRes.2.2)

/-- One operation of the pipeline acting on the world state: an ingestion
cycle or a regeneration run. -/
inductive SysOp
  | ingest (cenv : CycleEnv) (cfg : Config)
  | regen (o : RegenOptions) (renv : RegenEnv)

/-- The state transformation of an operation. -/
def applySysOp : SysOp → SysState → SysState
  | SysOp.ingest cenv cfg, s => (runIngestionCycle cenv cfg s).2
  | SysOp.regen o renv, s => (runRegeneration o renv s).2

/-- The analyzed-state equivalence on one story row: `embedded` holds
exactly when `analysisVersion` is non-null. -/
def recAnalyzedInvS (r : StoryRec) : Bool := r.embedded == r.analysisVersion.isSome

/-- The analyzed-state equivalence on one comment row. -/
def recAnalyzedInvC (r : CommentRec) : Bool := r.embedded == r.analysisVersion.isSome

/-- Every stored row satisfies the analyzed-state equivalence. -/
def analyzedInvB (s : SysState) : Bool :=
  s.db.stories.all recAnalyzedInvS && s.db.comments.all recAnalyzedInvC

/-- Source ids are unique within each table (the store's uniqueness
constraints). -/
def nodupIds (s : SysState) : Prop :=
  (s.db.stories.map (fun r => r.hnId)).Nodup ∧ (s.db.comments.map (fun r => r.hnId)).Nodup

/-- Every concept string stored on any row has the normalized shape. -/
def conceptsInvB (s : SysState) : Bool :=
  s.db.stories.all (fun r => r.concepts.all normalizedStrB) &&
  s.db.comments.all (fun r => r.concepts.all normalizedStrB)

/-- A per-row invariant on both tables, used to state preservation
lemmas generically. -/
def dbInvB (ps : StoryRec → Bool) (pc : CommentRec → Bool) (s : SysState) : Bool :=
  s.db.stories.all ps && s.db.comments.all pc

/-- A fetched item with every optional field absent, used as the base of
concrete test items. -/
def baseItem : HNItem :=
  { id := 0, type := str "story", byUser := some (str "alice"), time := 0,
    text := none, url := none, title := none, score := none,
    descendants := none, kids := [], parent := none,
    deleted := false, dead := false }

/-- The worker state as initialized at process start. -/
def initWS : WorkerState :=
  { running := false, lastRunAt := none, lastRunResult := none,
    totalProcessed := 0, totalEmbedded := 0, currentlyProcessing := none,
    cycleStartedAt := none, cycleTotal := 0, cycleCurrent := 0,
    cyclePhase := none, errors := [] }

/-- An empty world state. -/
def emptyState : SysState :=
  { db := { stories := [], comments := [] }, ws := initWS,
    chromaStories := [], chromaComments := [] }

/-- The default configuration values of `ingestion.ts` (max age 8 hours,
no story cap, no per-story comment cap, new-comment batch 10). -/
def cfg0 : Config :=
  { maxAgeHours := 8, maxStories := 0, maxCommentsPerStory := 0, newCommentsBatch := 10 }

/-- A concrete wall-clock instant (milliseconds). -/
def now0 : Int := 100000000

/-- A concrete story analysis whose concepts exercise the write-time
normalization. -/
def sAnalysis0 : StoryAnalysis :=
  { core_idea := str "decentralized identity"
    concepts := [str "Digital_Identity", str "  open  SOURCE "]
    technologies := [str "Rust"]
    entities := [str "OpenAI"]
    community_angle := str "control over identity"
    sentiment := str "positive"
    sentiment_score := 0
    controversy_potential := str "medium"
    intellectual_depth := str "deep" }

/-- A concrete comment analysis. -/
def cAnalysis0 : CommentAnalysis :=
  { argument_summary := str "identity should be portable"
    concepts := [str "Vendor_Lock_In"]
    technologies := []
    entities := []
    comment_type := str "technical_insight"
    sentiment := str "neutral"
    sentiment_score := 0 }

/-- Story 101: one hour old at `now0`, with one child comment. -/
def item101 : HNItem :=
  { baseItem with
    id := 101
    title := some (str "Story One")
    text := some (str "<p>Body text</p>")
    time := 96400
    score := some 10
    descendants := some 1
    kids := [301] }

/-- Story 202: twenty hours old at `now0`. -/
def item202 : HNItem :=
  { baseItem with id := 202, title := some (str "Old Story"), time := 28000 }

/-- Comment 301, a child of story 101, long enough to be analyzed. -/
def item301 : HNItem :=
  { baseItem with
    id := 301
    type := str "comment"
    text := some (str "This is a sufficiently long comment body for analysis.")
    time := 96500
    parent := some 101 }

/-- A story oracle that fetches the given item and succeeds at analysis
and embedding. -/
def storyEnvOk (it : HNItem) : StoryEnv :=
  { fetched := some it, analysis := Except.ok sAnalysis0, embedding := Except.ok [0] }

/-- A story oracle whose fetch fails. -/
def storyEnvNone : StoryEnv :=
  { fetched := none, analysis := Except.ok sAnalysis0, embedding := Except.ok [0] }

/-- Whether a story oracle's analysis and embedding calls both succeed. -/
def storyEnvOkB (e : StoryEnv) : Bool := e.analysis.isOk && e.embedding.isOk

/-- A concrete cycle oracle over candidates 101 and 202: story 101
fetches fresh, story 202 fetches stale, comment 301 is 101's child, and
every LLM call succeeds. -/
def cenv0 : CycleEnv :=
  { topIds := [101, 202], newIds := [101], now := now0,
    story := fun id =>
      if id = 101 then storyEnvOk item101
      else if id = 202 then storyEnvOk item202
      else storyEnvNone,
    child := fun id => if id = 301 then some item301 else none,
    comm := fun _ => { analysis := Except.ok cAnalysis0, embedding := Except.ok [0] } }

/-- The cycle oracle of the analysis-failure scenario: as `cenv0`, but
story 101's analysis call fails after retry exhaustion. -/
def cenvFail101 : CycleEnv :=
  { cenv0 with story := fun id =>
      if id = 101 then
        { fetched := some item101, analysis := Except.error (str "boom"),
          embedding := Except.ok [0] }
      else if id = 202 then storyEnvOk item202
      else storyEnvNone }

/-- The content of the C9 counterexample: leading text, a JSON object,
then trailing junk that ends with a stray closing brace. -/
def c9input : Str :=
  str "ignored " ++ [obr] ++ str "\"a\": 1" ++ [cbr] ++ str " trailing " ++ [cbr]

/-- A successful comment oracle. -/
def commentEnv0 : CommentEnv :=
  { analysis := Except.ok cAnalysis0, embedding := Except.ok [0] }

/-- A stored (unanalyzed) record for story 202. -/
def rec202 : StoryRec := mkStoryRec item202

/-- A store holding only story 202. -/
def stateWith202 : SysState := addStoryDb emptyState rec202

/-- A stored (unanalyzed) record for story 101. -/
def rec101 : StoryRec := mkStoryRec item101

/-- A store holding only story 101. -/
def stateWith101 : SysState := addStoryDb emptyState rec101

/-- Bounded consistency of the fetch oracle: for every id in the list, a
successful fetch returns an item carrying that id (the Hacker News
per-item endpoint is keyed by id). -/
def envConsistentB (cenv : CycleEnv) (l : List Nat) : Bool :=
  l.all (fun j =>
    match (cenv.story j).fetched with
    | some it => it.id == j
    | none => true)

/-- Every candidate other than the distinguished one has a story oracle
whose analysis and embedding calls succeed. -/
def othersOkB (cenv : CycleEnv) (l : List Nat) (i : Nat) : Bool :=
  l.all (fun j => j == i || storyEnvOkB (cenv.story j))

/-- Concrete regeneration options targeting the current version. -/
def regenOpts0 : RegenOptions :=
  { targetVersion := some (str "6"), maxItems := 50, rtype := str "all",
    sinceTs := none, untilTs := none }

/-- A regeneration oracle whose calls all succeed. -/
def renv0 : RegenEnv :=
  { storyA := fun _ => Except.ok sAnalysis0, storyE := fun _ => Except.ok [0],
    commA := fun _ => Except.ok cAnalysis0, commE := fun _ => Except.ok [0],
    now := now0 }

/-- Story 101's record after a successful analysis at the current
version. -/
def analyzedRec101 : StoryRec := storyAnalysisUpdate sAnalysis0 now0 rec101

/-- A store holding one fully analyzed story at the current version. -/
def stateAnalyzed : SysState := addStoryDb emptyState analyzedRec101

/-- The store holds a base (unanalyzed) story record for this id. -/
def unanalyzedStoryAt (db : DBState) (i : Nat) : Prop :=
  ∃ r ∈ db.stories, r.hnId = i ∧ r.embedded = false ∧ r.analysisVersion = none

/-- Story 101 analyzed at an older schema version "5". -/
def staleRec101 : StoryRec := { analyzedRec101 with analysisVersion := some (str "5") }

/-- A store holding one embedded story at the stale version "5". -/
def stateStale : SysState := addStoryDb emptyState staleRec101

theorem headWs_collapseWsAux_true (l : Str) : headWs (collapseWsAux true l) = false := by
  induction l with
  | nil => rfl
  | cons c rest ih =>
    unfold collapseWsAux
    by_cases h : isJsWs c = true
    · simpa [h] using ih
    · simp [h, headWs]

theorem mem_collapseWsAux {ch : Char} :
    ∀ (l : Str) (b : Bool), ch ∈ collapseWsAux b l → ch = ' ' ∨ ch ∈ l := by
  intro l
  induction l with
  | nil => intro b h; simp [collapseWsAux] at h
  | cons c rest ih =>
    intro b hmem
    unfold collapseWsAux at hmem
    by_cases h : isJsWs c = true
    · rw [if_pos h] at hmem
      by_cases hb : b = true
      · rw [if_pos hb] at hmem
        rcases ih true hmem with h1 | h1
        · exact Or.inl h1
        · exact Or.inr (List.mem_cons_of_mem _ h1)
      · rw [if_neg hb] at hmem
        rcases List.mem_cons.mp hmem with h1 | h1
        · exact Or.inl h1
        · rcases ih true h1 with h2 | h2
          · exact Or.inl h2
          · exact Or.inr (List.mem_cons_of_mem _ h2)
    · rw [if_neg h] at hmem
      rcases List.mem_cons.mp hmem with h1 | h1
      · exact Or.inr (h1 ▸ List.mem_cons_self _ _)
      · rcases ih false h1 with h2 | h2
        · exact Or.inl h2
        · exact Or.inr (List.mem_cons_of_mem _ h2)

theorem noDoubleWs_cons (a : Char) (l : Str) :
    noDoubleWs (a :: l) = (!(isJsWs a && headWs l) && noDoubleWs l) := by
  cases l with
  | nil => simp [noDoubleWs, headWs]
  | cons b rest => simp [noDoubleWs, headWs]

theorem noDoubleWs_collapseWsAux : ∀ (l : Str) (b : Bool), noDoubleWs (collapseWsAux b l) = true := by
  intro l
  induction l with
  | nil => intro b; rfl
  | cons c rest ih =>
    intro b
    unfold collapseWsAux
    by_cases h : isJsWs c = true
    · rw [if_pos h]
      by_cases hb : b = true
      · rw [if_pos hb]; exact ih true
      · rw [if_neg hb, noDoubleWs_cons, headWs_collapseWsAux_true, ih true]
        rfl
    · rw [if_neg h, noDoubleWs_cons, ih false]
      simp [h]

theorem noDoubleWs_tail {a : Char} {l : Str} (h : noDoubleWs (a :: l) = true) :
    noDoubleWs l = true := by
  rw [noDoubleWs_cons, Bool.and_eq_true] at h
  exact h.2

theorem noDoubleWs_dropWhile (p : Char → Bool) :
    ∀ l : Str, noDoubleWs l = true → noDoubleWs (l.dropWhile p) = true := by
  intro l
  induction l with
  | nil => exact fun h => h
  | cons a rest ih =>
    intro h
    rw [List.dropWhile_cons]
    by_cases hp : p a = true
    · rw [if_pos hp]; exact ih (noDoubleWs_tail h)
    · rw [if_neg hp]; exact h

theorem noDoubleWs_iff_chain :
    ∀ l : Str, noDoubleWs l = true ↔
      List.Chain' (fun a b => ¬(isJsWs a = true ∧ isJsWs b = true)) l := by
  intro l
  induction l with
  | nil => simp [noDoubleWs]
  | cons a rest ih =>
    cases rest with
    | nil => simp [noDoubleWs]
    | cons b t =>
      rw [List.chain'_cons, ← ih]
      show (!(isJsWs a && isJsWs b) && noDoubleWs (b :: t)) = true ↔ _
      rw [Bool.and_eq_true, Bool.not_eq_true', Bool.and_eq_false_iff]
      constructor
      · rintro ⟨h1, h2⟩
        refine ⟨?_, h2⟩
        rintro ⟨ha, hb⟩
        rcases h1 with h1 | h1 <;> simp_all
      · rintro ⟨h1, h2⟩
        refine ⟨?_, h2⟩
        by_cases ha : isJsWs a = true
        · by_cases hb : isJsWs b = true
          · exact absurd ⟨ha, hb⟩ h1
          · exact Or.inr (Bool.not_eq_true _ ▸ Bool.of_not_eq_true hb)
        · exact Or.inl (Bool.of_not_eq_true ha)

theorem noDoubleWs_reverse (l : Str) : noDoubleWs l.reverse = noDoubleWs l := by
  have h : noDoubleWs l.reverse = true ↔ noDoubleWs l = true := by
    rw [noDoubleWs_iff_chain, noDoubleWs_iff_chain, List.chain'_reverse]
    constructor
    · intro hc
      exact hc.imp (fun a b hab h2 => hab ⟨h2.2, h2.1⟩)
    · intro hc
      exact hc.imp (fun a b hab h2 => hab ⟨h2.2, h2.1⟩)
  cases h1 : noDoubleWs l.reverse <;> cases h2 : noDoubleWs l <;> simp_all

theorem headWs_dropWhile (l : Str) : headWs (l.dropWhile isJsWs) = false := by
  induction l with
  | nil => rfl
  | cons a rest ih =>
    rw [List.dropWhile_cons]
    by_cases h : isJsWs a = true
    · rw [if_pos h]; exact ih
    · rw [if_neg h]
      simpa [headWs] using h

theorem dropWhile_append_last (p : Char → Bool) (a : Char) (ha : p a = false) :
    ∀ xs : Str, ∃ l2, (xs ++ [a]).dropWhile p = l2 ++ [a] := by
  intro xs
  induction xs with
  | nil => exact ⟨[], by simp [List.dropWhile_cons, ha]⟩
  | cons x rest ih =>
    by_cases h : p x = true
    · simpa [List.cons_append, List.dropWhile_cons, h] using ih
    · exact ⟨x :: rest, by simp [List.cons_append, List.dropWhile_cons, h]⟩

theorem isTrimmedB_trimList (l : Str) : isTrimmedB (trimList l) = true := by
  have h2 : headWs (trimList l).reverse = false := by
    unfold trimList
    rw [List.reverse_reverse]
    exact headWs_dropWhile _
  have h1 : headWs (trimList l) = false := by
    unfold trimList
    cases hA : l.dropWhile isJsWs with
    | nil => simp [headWs]
    | cons a t =>
      have ha : isJsWs a = false := by
        have hh := headWs_dropWhile l
        rw [hA] at hh
        simpa [headWs] using hh
      obtain ⟨l2, hl2⟩ := dropWhile_append_last isJsWs a ha t.reverse
      rw [List.reverse_cons, hl2, List.reverse_append]
      simpa [headWs] using ha
  unfold isTrimmedB
  rw [h1, h2]
  rfl

theorem noDoubleWs_trimList (l : Str) (h : noDoubleWs l = true) :
    noDoubleWs (trimList l) = true := by
  unfold trimList
  rw [noDoubleWs_reverse]
  apply noDoubleWs_dropWhile
  rw [noDoubleWs_reverse]
  exact noDoubleWs_dropWhile _ _ h

theorem mem_trimList {ch : Char} {l : Str} (h : ch ∈ trimList l) : ch ∈ l := by
  unfold trimList at h
  rw [List.mem_reverse] at h
  have h2 := (List.dropWhile_sublist _).subset h
  rw [List.mem_reverse] at h2
  exact (List.dropWhile_sublist _).subset h2

theorem toLowerChar_not_upper (c : Char) : isAsciiUpper (toLowerChar c) = false := by
  unfold toLowerChar
  by_cases h : isAsciiUpper c = true
  · rw [if_pos h]
    unfold isAsciiUpper at h ⊢
    rw [Bool.and_eq_true, decide_eq_true_eq, decide_eq_true_eq] at h
    have hv : (c.toNat + 32).isValidChar := Or.inl (by omega)
    have ht : (Char.ofNat (c.toNat + 32)).toNat = c.toNat + 32 := by
      simp [Char.ofNat, hv]
      rfl
    rw [ht]
    simp only [Bool.and_eq_false_iff, decide_eq_false_iff_not]
    omega
  · rw [if_neg h]
    exact Bool.not_eq_true _ ▸ Bool.of_not_eq_true h

theorem normalizeConcept_chars {ch : Char} {c : Str} (h : ch ∈ normalizeConcept c) :
    isAsciiUpper ch = false ∧ ch ≠ '_' := by
  unfold normalizeConcept at h
  have h1 := mem_trimList h
  unfold collapseWs at h1
  rcases mem_collapseWsAux _ _ h1 with h2 | h2
  · subst h2
    exact ⟨by decide, by decide⟩
  · unfold replaceUnderscores at h2
    rcases List.mem_map.mp h2 with ⟨x, hx, hxe⟩
    by_cases hu : (x == '_') = true
    · rw [if_pos hu] at hxe
      subst hxe
      exact ⟨by decide, by decide⟩
    · rw [if_neg hu] at hxe
      subst hxe
      rcases List.mem_map.mp hx with ⟨y, _, hye⟩
      refine ⟨hye ▸ toLowerChar_not_upper y, ?_⟩
      intro hc
      exact hu (by rw [hc]; rfl)

theorem normalizedStrB_of_mem_normalizeConcepts {c : Str} {cs : List Str}
    (h : c ∈ normalizeConcepts cs) : normalizedStrB c = true := by
  unfold normalizeConcepts at h
  rw [List.mem_filter] at h
  obtain ⟨hmem, hlen⟩ := h
  rcases List.mem_map.mp hmem with ⟨c0, _, rfl⟩
  unfold normalizedStrB
  have hne : (normalizeConcept c0).isEmpty = false := by
    cases hc : normalizeConcept c0 with
    | nil => rw [hc] at hlen; simp at hlen
    | cons x t => rfl
  have hchars : (normalizeConcept c0).all (fun ch => !isAsciiUpper ch && !(ch == '_')) = true := by
    rw [List.all_eq_true]
    intro ch hch
    obtain ⟨h1, h2⟩ := normalizeConcept_chars hch
    simp [h1, h2]
  have hnd : noDoubleWs (normalizeConcept c0) = true := by
    unfold normalizeConcept
    exact noDoubleWs_trimList _ (noDoubleWs_collapseWsAux _ false)
  have htr : isTrimmedB (normalizeConcept c0) = true := isTrimmedB_trimList _
  rw [hne, hchars, hnd, htr]
  rfl

theorem all_normalizedStrB_normalizeConcepts (cs : List Str) :
    (normalizeConcepts cs).all normalizedStrB = true := by
  rw [List.all_eq_true]
  exact fun c hc => normalizedStrB_of_mem_normalizeConcepts hc

@[simp] theorem pushErr_db (s : SysState) (e : Str) : (pushErr s e).db = s.db := rfl
@[simp] theorem pushErr_totalProcessed (s : SysState) (e : Str) :
    (pushErr s e).ws.totalProcessed = s.ws.totalProcessed := rfl
@[simp] theorem pushErr_errors (s : SysState) (e : Str) :
    (pushErr s e).ws.errors = pushErrList s.ws.errors e := rfl

@[simp] theorem incTotalProcessed_db (s : SysState) : (incTotalProcessed s).db = s.db := rfl
@[simp] theorem incTotalProcessed_totalProcessed (s : SysState) :
    (incTotalProcessed s).ws.totalProcessed = s.ws.totalProcessed + 1 := rfl
@[simp] theorem incTotalProcessed_errors (s : SysState) :
    (incTotalProcessed s).ws.errors = s.ws.errors := rfl

@[simp] theorem incTotalEmbedded_db (s : SysState) : (incTotalEmbedded s).db = s.db := rfl
@[simp] theorem incTotalEmbedded_totalProcessed (s : SysState) :
    (incTotalEmbedded s).ws.totalProcessed = s.ws.totalProcessed := rfl
@[simp] theorem incTotalEmbedded_errors (s : SysState) :
    (incTotalEmbedded s).ws.errors = s.ws.errors := rfl

@[simp] theorem setCurrentlyProcessing_db (s : SysState) (v : Option Str) :
    (setCurrentlyProcessing s v).db = s.db := rfl
@[simp] theorem setCurrentlyProcessing_totalProcessed (s : SysState) (v : Option Str) :
    (setCurrentlyProcessing s v).ws.totalProcessed = s.ws.totalProcessed := rfl
@[simp] theorem setCurrentlyProcessing_errors (s : SysState) (v : Option Str) :
    (setCurrentlyProcessing s v).ws.errors = s.ws.errors := rfl

@[simp] theorem incCycleCurrent_db (s : SysState) : (incCycleCurrent s).db = s.db := rfl
@[simp] theorem incCycleCurrent_totalProcessed (s : SysState) :
    (incCycleCurrent s).ws.totalProcessed = s.ws.totalProcessed := rfl
@[simp] theorem incCycleCurrent_errors (s : SysState) :
    (incCycleCurrent s).ws.errors = s.ws.errors := rfl

@[simp] theorem setCycleProgress_db (s : SysState) (n : Nat) :
    (setCycleProgress s n).db = s.db := rfl
@[simp] theorem setCycleProgress_totalProcessed (s : SysState) (n : Nat) :
    (setCycleProgress s n).ws.totalProcessed = s.ws.totalProcessed := rfl
@[simp] theorem setCycleProgress_errors (s : SysState) (n : Nat) :
    (setCycleProgress s n).ws.errors = s.ws.errors := rfl

@[simp] theorem addChromaStory_db (s : SysState) (id : Nat) (e : Emb) :
    (addChromaStory s id e).db = s.db := rfl
@[simp] theorem addChromaStory_ws (s : SysState) (id : Nat) (e : Emb) :
    (addChromaStory s id e).ws = s.ws := rfl
@[simp] theorem addChromaComment_db (s : SysState) (id : Nat) (e : Emb) :
    (addChromaComment s id e).db = s.db := rfl
@[simp] theorem addChromaComment_ws (s : SysState) (id : Nat) (e : Emb) :
    (addChromaComment s id e).ws = s.ws := rfl

@[simp] theorem addStoryDb_ws (s : SysState) (r : StoryRec) : (addStoryDb s r).ws = s.ws := rfl
@[simp] theorem addStoryDb_stories (s : SysState) (r : StoryRec) :
    (addStoryDb s r).db.stories = s.db.stories ++ [r] := rfl
@[simp] theorem addStoryDb_comments (s : SysState) (r : StoryRec) :
    (addStoryDb s r).db.comments = s.db.comments := rfl

@[simp] theorem addCommentDb_ws (s : SysState) (r : CommentRec) : (addCommentDb s r).ws = s.ws := rfl
@[simp] theorem addCommentDb_stories (s : SysState) (r : CommentRec) :
    (addCommentDb s r).db.stories = s.db.stories := rfl
@[simp] theorem addCommentDb_comments (s : SysState) (r : CommentRec) :
    (addCommentDb s r).db.comments = s.db.comments ++ [r] := rfl

@[simp] theorem updateStoryDb_ws (s : SysState) (k : Nat) (f : StoryRec → StoryRec) :
    (updateStoryDb s k f).ws = s.ws := rfl
@[simp] theorem updateStoryDb_stories (s : SysState) (k : Nat) (f : StoryRec → StoryRec) :
    (updateStoryDb s k f).db.stories = s.db.stories.map (fun r => if r.hnId == k then f r else r) := rfl
@[simp] theorem updateStoryDb_comments (s : SysState) (k : Nat) (f : StoryRec → StoryRec) :
    (updateStoryDb s k f).db.comments = s.db.comments := rfl

@[simp] theorem updateCommentDb_ws (s : SysState) (k : Nat) (f : CommentRec → CommentRec) :
    (updateCommentDb s k f).ws = s.ws := rfl
@[simp] theorem updateCommentDb_stories (s : SysState) (k : Nat) (f : CommentRec → CommentRec) :
    (updateCommentDb s k f).db.stories = s.db.stories := rfl
@[simp] theorem updateCommentDb_comments (s : SysState) (k : Nat) (f : CommentRec → CommentRec) :
    (updateCommentDb s k f).db.comments = s.db.comments.map (fun r => if r.hnId == k then f r else r) := rfl

theorem all_map_keyed {α : Type} (P : α → Bool) (q : α → Bool) (f : α → α) (l : List α)
    (hl : l.all P = true) (hf : ∀ r, P r = true → P (f r) = true) :
    (l.map (fun r => if q r then f r else r)).all P = true := by
  rw [List.all_eq_true] at hl ⊢
  intro x hx
  rcases List.mem_map.mp hx with ⟨r, hr, rfl⟩
  by_cases hq : q r = true
  · rw [if_pos hq]; exact hf r (hl r hr)
  · rw [if_neg hq]; exact hl r hr

theorem dbInvB_and (ps : StoryRec → Bool) (pc : CommentRec → Bool) (s : SysState) :
    dbInvB ps pc s = true ↔ s.db.stories.all ps = true ∧ s.db.comments.all pc = true := by
  unfold dbInvB
  rw [Bool.and_eq_true]

theorem dbInv_processStoryOnly (ps : StoryRec → Bool) (pc : CommentRec → Bool)
    (env : StoryEnv) (cfg : Config) (now : Int) (s : SysState) (hnId : Nat)
    (hmk : ∀ item, ps (mkStoryRec item) = true)
    (hup : ∀ a n r, ps r = true → ps (storyAnalysisUpdate a n r) = true)
    (hvol : ∀ item r, ps r = true → ps (storyVolatileUpdate item r) = true)
    (h : dbInvB ps pc s = true) :
    dbInvB ps pc (processStoryOnly env cfg now s hnId).2.2 = true := by
  obtain ⟨hs, hc⟩ := (dbInvB_and ps pc s).mp h
  cases hf : env.fetched with
  | none => simpa [processStoryOnly, hf] using h
  | some item =>
    by_cases ht : (item.type == str "story") = true
    · by_cases hr : isRecent cfg now item.time = true
      · cases he : findStory s.db hnId with
        | some ex =>
          simp only [processStoryOnly, hf, ht, hr, he, Bool.not_true, Bool.false_eq_true,
            if_false, if_true]
          rw [dbInvB_and]
          refine ⟨?_, hc⟩
          rw [updateStoryDb_stories]
          exact all_map_keyed ps _ _ _ hs (fun r hr2 => hvol item r hr2)
        | none =>
          simp only [processStoryOnly, hf, ht, hr, he, Bool.not_true, Bool.false_eq_true,
            if_false, if_true]
          have hs2 : ((s.db.stories ++ [mkStoryRec item]).all ps) = true := by
            rw [List.all_append, Bool.and_eq_true]
            exact ⟨hs, by simp [hmk item]⟩
          by_cases htxt : (storyTextForAnalysis item).length > 0
          · rw [if_pos htxt]
            cases ha : env.analysis with
            | error msg =>
              rw [dbInvB_and]
              exact ⟨hs2, hc⟩
            | ok a =>
              cases hemb : env.embedding with
              | error msg =>
                rw [dbInvB_and]
                exact ⟨hs2, hc⟩
              | ok emb =>
                rw [dbInvB_and]
                constructor
                · simp only [incTotalProcessed_db, incTotalEmbedded_db, addChromaStory_db,
                    updateStoryDb_stories]
                  refine all_map_keyed ps _ _ _ ?_ (fun r hr2 => hup a now r hr2)
                  exact hs2
                · exact hc
          · rw [if_neg htxt]
            rw [dbInvB_and]
            exact ⟨hs2, hc⟩
      · simp only [processStoryOnly, hf, ht, hr]
        simpa [dbInvB] using h
    · simp only [processStoryOnly, hf, ht]
      simpa [dbInvB] using h

@[simp] theorem bumpCounts_s (acc : CycleAcc) (r : StoryResult) :
    (bumpCounts acc r).s = acc.s := rfl

theorem bumpCounts_sum (acc : CycleAcc) (r : StoryResult) :
    (bumpCounts acc r).ingested + (bumpCounts acc r).skipped + (bumpCounts acc r).tooOld +
      (bumpCounts acc r).errors =
    acc.ingested + acc.skipped + acc.tooOld + acc.errors + 1 := by
  cases r <;> simp [bumpCounts] <;> omega

theorem bumpCounts_ingested (acc : CycleAcc) (r : StoryResult) :
    (bumpCounts acc r).ingested =
      acc.ingested + (if r = StoryResult.new then 1 else 0) := rfl

theorem processComment_frame (ce : CommentEnv) (now : Int) (ci : HNItem) (sid : Nat)
    (st : Str) (pctx : Option Str) (s : SysState) :
    (processComment ce now ci sid st pctx s).2.db.stories = s.db.stories ∧
    (processComment ce now ci sid st pctx s).2.ws.totalProcessed = s.ws.totalProcessed ∧
    (processComment ce now ci sid st pctx s).2.ws.errors = s.ws.errors := by
  unfold processComment
  by_cases hex : commentExists s.db ci.id = true
  · rw [if_pos hex]; exact ⟨rfl, rfl, rfl⟩
  · rw [if_neg hex]
    by_cases hlen : (stripHtml ci.text).length > 30
    · rw [if_pos hlen]
      cases ce.analysis with
      | error m => exact ⟨rfl, rfl, rfl⟩
      | ok a =>
        cases ce.embedding with
        | error m => exact ⟨rfl, rfl, rfl⟩
        | ok emb => exact ⟨rfl, rfl, rfl⟩
    · rw [if_neg hlen]; exact ⟨rfl, rfl, rfl⟩


theorem commentsLoop_frame (cenv : CycleEnv) (cfg : Config) (es : List Nat) (sid : Nat)
    (st : Str) :
    ∀ (l : List HNItem) (processed newC : Nat) (pmap : List (Nat × Str)) (s : SysState),
    (commentsLoop cenv cfg es sid st l processed newC pmap s).2.2.db.stories = s.db.stories ∧
    (commentsLoop cenv cfg es sid st l processed newC pmap s).2.2.ws.totalProcessed = s.ws.totalProcessed ∧
    (commentsLoop cenv cfg es sid st l processed newC pmap s).2.2.ws.errors = s.ws.errors := by
  intro l
  induction l with
  | nil => intro processed newC pmap s; exact ⟨rfl, rfl, rfl⟩
  | cons ci rest ih =>
    intro processed newC pmap s
    simp only [commentsLoop]
    by_cases h1 : es.contains ci.id = true
    · rw [if_pos h1]; exact ih _ _ _ _
    · rw [if_neg h1]
      by_cases h2 : cfg.newCommentsBatch > 0 ∧ newC ≥ cfg.newCommentsBatch
      · rw [if_pos h2]; exact ⟨rfl, rfl, rfl⟩
      · rw [if_neg h2]
        obtain ⟨f1, f2, f3⟩ :=
          processComment_frame (cenv.comm ci.id) cenv.now ci sid st (parentCtxOf pmap ci) s
        by_cases h3 : (processComment (cenv.comm ci.id) cenv.now ci sid st
            (parentCtxOf pmap ci) s).1 = true
        · rw [if_pos h3]
          exact ⟨(ih _ _ _ _).1.trans f1, (ih _ _ _ _).2.1.trans f2, (ih _ _ _ _).2.2.trans f3⟩
        · rw [if_neg h3]
          exact ⟨(ih _ _ _ _).1.trans f1, (ih _ _ _ _).2.1.trans f2, (ih _ _ _ _).2.2.trans f3⟩

theorem processStoryComments_frame (cenv : CycleEnv) (cfg : Config) (item : HNItem)
    (s : SysState) :
    (processStoryComments cenv cfg item s).2.2.db.stories = s.db.stories ∧
    (processStoryComments cenv cfg item s).2.2.ws.totalProcessed = s.ws.totalProcessed ∧
    (processStoryComments cenv cfg item s).2.2.ws.errors = s.ws.errors := by
  unfold processStoryComments
  by_cases hk : item.kids.isEmpty = true
  · rw [if_pos hk]; exact ⟨rfl, rfl, rfl⟩
  · rw [if_neg hk]; exact commentsLoop_frame cenv cfg _ _ _ _ _ _ _ _

theorem dbInv_processComment (ps : StoryRec → Bool) (pc : CommentRec → Bool)
    (ce : CommentEnv) (now : Int) (ci : HNItem) (sid : Nat) (st : Str) (pctx : Option Str)
    (s : SysState)
    (hmk : ∀ ci2 sid2, pc (mkCommentRec ci2 sid2) = true)
    (hup : ∀ a n r, pc r = true → pc (commentAnalysisUpdate a (normalizeConcepts a.concepts) n r) = true)
    (h : dbInvB ps pc s = true) :
    dbInvB ps pc (processComment ce now ci sid st pctx s).2 = true := by
  obtain ⟨hs, hc⟩ := (dbInvB_and ps pc s).mp h
  unfold processComment
  by_cases hex : commentExists s.db ci.id = true
  · rw [if_pos hex]; exact h
  · rw [if_neg hex]
    have hc2 : ((s.db.comments ++ [mkCommentRec ci sid]).all pc) = true := by
      rw [List.all_append, Bool.and_eq_true]
      exact ⟨hc, by simp [hmk]⟩
    by_cases hlen : (stripHtml ci.text).length > 30
    · rw [if_pos hlen]
      cases ha : ce.analysis with
      | error m => rw [dbInvB_and]; exact ⟨hs, hc2⟩
      | ok a =>
        cases he : ce.embedding with
        | error m => rw [dbInvB_and]; exact ⟨hs, hc2⟩
        | ok emb =>
          rw [dbInvB_and]
          constructor
          · simpa using hs
          · simp only [incTotalEmbedded_db, addChromaComment_db, updateCommentDb_comments,
              addCommentDb_comments]
            exact all_map_keyed pc _ _ _ hc2 (fun r hr => hup a now r hr)
    · rw [if_neg hlen]
      rw [dbInvB_and]
      exact ⟨hs, hc2⟩

theorem dbInv_commentsLoop (ps : StoryRec → Bool) (pc : CommentRec → Bool)
    (cenv : CycleEnv) (cfg : Config) (es : List Nat) (sid : Nat) (st : Str)
    (hmk : ∀ ci2 sid2, pc (mkCommentRec ci2 sid2) = true)
    (hup : ∀ a n r, pc r = true → pc (commentAnalysisUpdate a (normalizeConcepts a.concepts) n r) = true) :
    ∀ (l : List HNItem) (processed newC : Nat) (pmap : List (Nat × Str)) (s : SysState),
    dbInvB ps pc s = true →
    dbInvB ps pc (commentsLoop cenv cfg es sid st l processed newC pmap s).2.2 = true := by
  intro l
  induction l with
  | nil => intro processed newC pmap s h; exact h
  | cons ci rest ih =>
    intro processed newC pmap s h
    simp only [commentsLoop]
    by_cases h1 : es.contains ci.id = true
    · rw [if_pos h1]; exact ih _ _ _ _ h
    · rw [if_neg h1]
      by_cases h2 : cfg.newCommentsBatch > 0 ∧ newC ≥ cfg.newCommentsBatch
      · rw [if_pos h2]; exact h
      · rw [if_neg h2]
        have hpc := dbInv_processComment ps pc (cenv.comm ci.id) cenv.now ci sid st
          (parentCtxOf pmap ci) s hmk hup h
        by_cases h3 : (processComment (cenv.comm ci.id) cenv.now ci sid st
            (parentCtxOf pmap ci) s).1 = true
        · rw [if_pos h3]; exact ih _ _ _ _ hpc
        · rw [if_neg h3]; exact ih _ _ _ _ hpc

theorem dbInv_processStoryComments (ps : StoryRec → Bool) (pc : CommentRec → Bool)
    (cenv : CycleEnv) (cfg : Config) (item : HNItem) (s : SysState)
    (hmk : ∀ ci2 sid2, pc (mkCommentRec ci2 sid2) = true)
    (hup : ∀ a n r, pc r = true → pc (commentAnalysisUpdate a (normalizeConcepts a.concepts) n r) = true)
    (h : dbInvB ps pc s = true) :
    dbInvB ps pc (processStoryComments cenv cfg item s).2.2 = true := by
  unfold processStoryComments
  by_cases hk : item.kids.isEmpty = true
  · rw [if_pos hk]; exact h
  · rw [if_neg hk]; exact dbInv_commentsLoop ps pc cenv cfg _ _ _ hmk hup _ _ _ _ _ h

theorem dbInv_cycleStep (ps : StoryRec → Bool) (pc : CommentRec → Bool)
    (cenv : CycleEnv) (cfg : Config) (acc : CycleAcc) (hnId : Nat)
    (hmkS : ∀ item, ps (mkStoryRec item) = true)
    (hupS : ∀ a n r, ps r = true → ps (storyAnalysisUpdate a n r) = true)
    (hvol : ∀ item r, ps r = true → ps (storyVolatileUpdate item r) = true)
    (hmkC : ∀ ci2 sid2, pc (mkCommentRec ci2 sid2) = true)
    (hupC : ∀ a n r, pc r = true → pc (commentAnalysisUpdate a (normalizeConcepts a.concepts) n r) = true)
    (h : dbInvB ps pc acc.s = true) :
    dbInvB ps pc (cycleStep cenv cfg acc hnId).s = true := by
  simp only [cycleStep]
  have h1 : dbInvB ps pc
      (processStoryOnly (cenv.story hnId) cfg cenv.now (incCycleCurrent acc.s) hnId).2.2 = true := by
    apply dbInv_processStoryOnly ps pc _ _ _ _ _ hmkS hupS hvol
    exact h
  split
  · split
    · apply dbInv_processStoryComments ps pc _ _ _ _ hmkC hupC
      simpa using h1
    · simpa using h1
  · simpa using h1

theorem dbInv_cycleFold (ps : StoryRec → Bool) (pc : CommentRec → Bool)
    (cenv : CycleEnv) (cfg : Config)
    (hmkS : ∀ item, ps (mkStoryRec item) = true)
    (hupS : ∀ a n r, ps r = true → ps (storyAnalysisUpdate a n r) = true)
    (hvol : ∀ item r, ps r = true → ps (storyVolatileUpdate item r) = true)
    (hmkC : ∀ ci2 sid2, pc (mkCommentRec ci2 sid2) = true)
    (hupC : ∀ a n r, pc r = true → pc (commentAnalysisUpdate a (normalizeConcepts a.concepts) n r) = true) :
    ∀ (l : List Nat) (acc : CycleAcc), dbInvB ps pc acc.s = true →
    dbInvB ps pc ((l.foldl (cycleStep cenv cfg) acc).s) = true := by
  intro l
  induction l with
  | nil => exact fun acc h => h
  | cons x rest ih =>
    intro acc h
    exact ih _ (dbInv_cycleStep ps pc cenv cfg acc x hmkS hupS hvol hmkC hupC h)

theorem dbInv_runIngestionCycle (ps : StoryRec → Bool) (pc : CommentRec → Bool)
    (cenv : CycleEnv) (cfg : Config) (s : SysState)
    (hmkS : ∀ item, ps (mkStoryRec item) = true)
    (hupS : ∀ a n r, ps r = true → ps (storyAnalysisUpdate a n r) = true)
    (hvol : ∀ item r, ps r = true → ps (storyVolatileUpdate item r) = true)
    (hmkC : ∀ ci2 sid2, pc (mkCommentRec ci2 sid2) = true)
    (hupC : ∀ a n r, pc r = true → pc (commentAnalysisUpdate a (normalizeConcepts a.concepts) n r) = true)
    (h : dbInvB ps pc s = true) :
    dbInvB ps pc (runIngestionCycle cenv cfg s).2 = true := by
  unfold runIngestionCycle
  exact dbInv_cycleFold ps pc cenv cfg hmkS hupS hvol hmkC hupC _ _ h

theorem dbInv_regenStoryStep (ps : StoryRec → Bool) (pc : CommentRec → Bool)
    (renv : RegenEnv) (version : Str)
    (hup : ∀ a v n r, ps r = true → ps (regenStoryUpdate a v n r) = true)
    (acc : Nat × List Str × SysState) (story : StoryRec)
    (h : dbInvB ps pc acc.2.2 = true) :
    dbInvB ps pc (regenStoryStep renv version acc story).2.2 = true := by
  unfold regenStoryStep
  cases renv.storyA story.hnId with
  | error m => exact h
  | ok a =>
    cases renv.storyE story.hnId with
    | error m => exact h
    | ok emb =>
      obtain ⟨hs, hc⟩ := (dbInvB_and ps pc acc.2.2).mp h
      rw [dbInvB_and]
      constructor
      · simp only [addChromaStory_db, updateStoryDb_stories]
        exact all_map_keyed ps _ _ _ hs (fun r hr => hup a version renv.now r hr)
      · simpa using hc

theorem dbInv_regenCommentStep (ps : StoryRec → Bool) (pc : CommentRec → Bool)
    (renv : RegenEnv) (version : Str)
    (hup : ∀ a v n r, pc r = true → pc (regenCommentUpdate a v n r) = true)
    (acc : Nat × List Str × SysState) (c : CommentRec)
    (h : dbInvB ps pc acc.2.2 = true) :
    dbInvB ps pc (regenCommentStep renv version acc c).2.2 = true := by
  unfold regenCommentStep
  by_cases hlen : (stripHtml c.text).length ≤ 30
  · rw [if_pos hlen]; exact h
  · rw [if_neg hlen]
    cases renv.commA c.hnId with
    | error m => exact h
    | ok a =>
      cases renv.commE c.hnId with
      | error m => exact h
      | ok emb =>
        obtain ⟨hs, hc⟩ := (dbInvB_and ps pc acc.2.2).mp h
        rw [dbInvB_and]
        constructor
        · simpa using hs
        · simp only [addChromaComment_db, updateCommentDb_comments]
          exact all_map_keyed pc _ _ _ hc (fun r hr => hup a version renv.now r hr)

theorem dbInv_regenStoryFold (ps : StoryRec → Bool) (pc : CommentRec → Bool)
    (renv : RegenEnv) (version : Str)
    (hup : ∀ a v n r, ps r = true → ps (regenStoryUpdate a v n r) = true) :
    ∀ (l : List StoryRec) (acc : Nat × List Str × SysState), dbInvB ps pc acc.2.2 = true →
    dbInvB ps pc ((l.foldl (regenStoryStep renv version) acc)).2.2 = true := by
  intro l
  induction l with
  | nil => exact fun acc h => h
  | cons x rest ih =>
    intro acc h
    exact ih _ (dbInv_regenStoryStep ps pc renv version hup acc x h)

theorem dbInv_regenCommentFold (ps : StoryRec → Bool) (pc : CommentRec → Bool)
    (renv : RegenEnv) (version : Str)
    (hup : ∀ a v n r, pc r = true → pc (regenCommentUpdate a v n r) = true) :
    ∀ (l : List CommentRec) (acc : Nat × List Str × SysState), dbInvB ps pc acc.2.2 = true →
    dbInvB ps pc ((l.foldl (regenCommentStep renv version) acc)).2.2 = true := by
  intro l
  induction l with
  | nil => exact fun acc h => h
  | cons x rest ih =>
    intro acc h
    exact ih _ (dbInv_regenCommentStep ps pc renv version hup acc x h)

theorem dbInv_runRegeneration (ps : StoryRec → Bool) (pc : CommentRec → Bool)
    (o : RegenOptions) (renv : RegenEnv) (s : SysState)
    (hupS : ∀ a v n r, ps r = true → ps (regenStoryUpdate a v n r) = true)
    (hupC : ∀ a v n r, pc r = true → pc (regenCommentUpdate a v n r) = true)
    (h : dbInvB ps pc s = true) :
    dbInvB ps pc (runRegeneration o renv s).2 = true := by
  simp only [runRegeneration]
  split
  · split
    · apply dbInv_regenCommentFold ps pc renv _ hupC
      apply dbInv_regenStoryFold ps pc renv _ hupS
      exact h
    · apply dbInv_regenCommentFold ps pc renv _ hupC
      exact h
  · split
    · apply dbInv_regenStoryFold ps pc renv _ hupS
      exact h
    · exact h

/-- C3: every concept string stored for any item by an ingestion cycle or
a regeneration run results from the write-time normalization: it is
lowercase (no ASCII uppercase letters), contains no underscore, contains
no run of more than one whitespace character, is trimmed, and is
non-empty; the property is preserved by every pipeline operation. -/
theorem c3_stored_concepts_normalized (op : SysOp) (s : SysState)
    (h : conceptsInvB s = true) : conceptsInvB (applySysOp op s) = true := by
  cases op with
  | ingest cenv cfg =>
    exact dbInv_runIngestionCycle _ _ cenv cfg s
      (fun _ => rfl)
      (fun a n r _ => all_normalizedStrB_normalizeConcepts a.concepts)
      (fun _ r hr => hr)
      (fun _ _ => rfl)
      (fun a n r _ => all_normalizedStrB_normalizeConcepts a.concepts)
      h
  | regen o renv =>
    exact dbInv_runRegeneration _ _ o renv s
      (fun a v n r _ => all_normalizedStrB_normalizeConcepts a.concepts)
      (fun a v n r _ => all_normalizedStrB_normalizeConcepts a.concepts)
      h

theorem c3_stored_concepts_normalized_witness :
    conceptsInvB emptyState = true ∧
    conceptsInvB (applySysOp (SysOp.ingest cenv0 cfg0) emptyState) = true :=
  ⟨rfl, c3_stored_concepts_normalized (SysOp.ingest cenv0 cfg0) emptyState rfl⟩

theorem withRetryGo_eq_specRetryGo {α : Type} (calls : Nat → Except ApiErr α) (cap : Nat) :
    ∀ (fuel attempt : Nat) (delays : List Nat), cap + 1 - attempt ≤ fuel →
    withRetryGo calls cap attempt delays = specRetryGo calls cap attempt delays := by
  intro fuel
  induction fuel with
  | zero =>
    intro attempt delays hf
    have hc : ¬ attempt < cap := by omega
    rw [withRetryGo, specRetryGo]
    cases calls attempt with
    | ok v => rfl
    | error e => simp [hc]
  | succ n ih =>
    intro attempt delays hf
    rw [withRetryGo, specRetryGo]
    cases hcall : calls attempt with
    | ok v => rfl
    | error e =>
      dsimp only
      by_cases hc : attempt < cap
      · rw [dif_pos hc]
        rcases hs : e.status with _ | st
        · rw [retryDecisionTable, if_pos hc, hs]
          dsimp only
          simp [hs, is5xx]
        · rw [retryDecisionTable, if_pos hc, hs]
          dsimp only
          by_cases h429 : st = 429
          · subst h429
            rw [if_pos rfl]
            dsimp only
            rw [dif_neg (by simp), dif_pos (by exact ⟨rfl, hc⟩)]
            exact ih (attempt + 1) _ (by omega)
          · rw [if_neg h429]
            by_cases h5 : 500 ≤ st
            · rw [if_pos h5]
              dsimp only
              rw [dif_neg (by simp; omega), dif_neg (by simp [h429]),
                dif_pos (by simp [is5xx]; exact ⟨h5, hc⟩)]
              exact ih (attempt + 1) _ (by omega)
            · rw [if_neg h5]
              by_cases h4 : st = 400 ∧ providerTruthy e = true
              · rw [if_pos h4]
                dsimp only
                rw [dif_pos (by exact ⟨by rw [h4.1], h4.2, hc⟩)]
                exact ih (attempt + 1) _ (by omega)
              · rw [if_neg h4]
                dsimp only
                rw [dif_neg (by intro hcon; exact h4 ⟨by injection hcon.1, hcon.2.1⟩),
                  dif_neg (by intro hcon; exact h429 (by injection hcon.1)),
                  dif_neg (by simp [is5xx]; omega)]
      · rw [dif_neg hc]
        simp [hc]

/-- C5: the retry wrapper around the analysis and embedding calls behaves
exactly as the decision table the specification describes: on HTTP 429 it
waits the maximum of the server Retry-After and `base * 2^attempt` and
retries up to the attempt cap; on HTTP 5xx it retries with exponential
backoff up to the same cap; on a 400 whose error body names an upstream
sub-provider it retries with linear backoff up to the cap; any other
error, or cap exhaustion, propagates as a hard failure, with the same
waits and the same final outcome. -/
theorem c5_retry_decision_table {α : Type} (calls : Nat → Except ApiErr α) :
    withRetry calls = specRetryGo calls maxRetriesDefault 0 [] ∧
    ∀ cap : Nat, withRetryGo calls cap 0 [] = specRetryGo calls cap 0 [] :=
  ⟨withRetryGo_eq_specRetryGo calls maxRetriesDefault (maxRetriesDefault + 1) 0 [] (by omega),
   fun cap => withRetryGo_eq_specRetryGo calls cap (cap + 1) 0 [] (by omega)⟩

/-- C9 counterexample: on this concrete response body the strict parse
fails, and the claimed procedure — parse the first balanced curly-brace
substring — would succeed, yet `parseJsonResponse` gives up with an
error, because the code's regex extraction is greedy: it takes the span
from the first opening brace to the last closing brace, which here
includes the trailing junk and is not valid JSON. -/
theorem c9_counterexample :
    parseJsonResponse c9input = Except.error ParseErr.syntaxError ∧
    firstBalancedSub c9input = some ([obr] ++ str "\"a\": 1" ++ [cbr]) ∧
    jsonParse ([obr] ++ str "\"a\": 1" ++ [cbr]) =
      some (Json.jobj [(str "a", Json.jnum (str "1"))]) ∧
    braceMatchGreedy c9input =
      some ([obr] ++ str "\"a\": 1" ++ [cbr] ++ str " trailing " ++ [cbr]) ∧
    jsonParse ([obr] ++ str "\"a\": 1" ++ [cbr] ++ str " trailing " ++ [cbr]) = none :=
  ⟨rfl, rfl, rfl, rfl, rfl⟩

/-- C9 amended: for every LLM response body, parsing first attempts
strict JSON parsing; if that fails, a best-effort scan extracts the
substring from the first opening brace to the last closing brace (the
greedy regex match, not the first balanced substring) and parses that;
if no such substring exists the call gives up with the descriptive
error, and if the extracted substring fails to parse, that parse error
propagates. -/
theorem c9_amended (content : Str) :
    (∀ j, jsonParse content = some j → parseJsonResponse content = Except.ok j) ∧
    (jsonParse content = none → braceMatchGreedy content = none →
      parseJsonResponse content = Except.error (ParseErr.failedToParse (content.take 200))) ∧
    (∀ sub j, jsonParse content = none → braceMatchGreedy content = some sub →
      jsonParse sub = some j → parseJsonResponse content = Except.ok j) ∧
    (∀ sub, jsonParse content = none → braceMatchGreedy content = some sub →
      jsonParse sub = none → parseJsonResponse content = Except.error ParseErr.syntaxError) := by
  refine ⟨?_, ?_, ?_, ?_⟩ <;> unfold parseJsonResponse <;> intros <;> simp_all

theorem length_filter_keyed_map_comments (f : CommentRec → CommentRec) (k i : Nat)
    (hf : ∀ r, (f r).hnId = r.hnId) :
    ∀ l : List CommentRec,
    ((l.map (fun r => if r.hnId == k then f r else r)).filter (fun r => r.hnId == i)).length =
      (l.filter (fun r => r.hnId == i)).length := by
  intro l
  induction l with
  | nil => rfl
  | cons x rest ih =>
    rw [List.map_cons]
    by_cases hk : (x.hnId == k) = true
    · rw [if_pos hk, List.filter_cons, List.filter_cons]
      have h1 : ((f x).hnId == i) = (x.hnId == i) := by rw [hf]
      rw [h1]
      by_cases hi : (x.hnId == i) = true
      · rw [if_pos hi, if_pos hi, List.length_cons, List.length_cons, ih]
      · rw [if_neg hi, if_neg hi]; exact ih
    · rw [if_neg hk, List.filter_cons, List.filter_cons]
      by_cases hi : (x.hnId == i) = true
      · rw [if_pos hi, if_pos hi, List.length_cons, List.length_cons, ih]
      · rw [if_neg hi, if_neg hi]; exact ih

theorem processComment_count (ce : CommentEnv) (now : Int) (ci : HNItem) (sid : Nat)
    (st : Str) (pctx : Option Str) (s : SysState)
    (h : commentExists s.db ci.id = false) :
    commentCount (processComment ce now ci sid st pctx s).2.db ci.id =
      commentCount s.db ci.id + 1 := by
  unfold processComment
  rw [if_neg (by simp [h])]
  have hbase : commentCount (addCommentDb s (mkCommentRec ci sid)).db ci.id =
      commentCount s.db ci.id + 1 := by
    unfold commentCount
    rw [addCommentDb_comments, List.filter_append]
    simp [mkCommentRec]
  by_cases hlen : (stripHtml ci.text).length > 30
  · rw [if_pos hlen]
    cases ce.analysis with
    | error m => exact hbase
    | ok a =>
      cases ce.embedding with
      | error m => exact hbase
      | ok emb =>
        show commentCount (incTotalEmbedded (addChromaComment
          (updateCommentDb (addCommentDb s (mkCommentRec ci sid)) ci.id
            (commentAnalysisUpdate a (normalizeConcepts a.concepts) now)) ci.id emb)).db ci.id = _
        unfold commentCount
        simp only [incTotalEmbedded_db, addChromaComment_db, updateCommentDb_comments]
        rw [length_filter_keyed_map_comments
          (commentAnalysisUpdate a (normalizeConcepts a.concepts) now) ci.id ci.id (fun r => rfl)]
        exact hbase
  · rw [if_neg hlen]
    exact hbase

theorem commentExists_of_count_pos (db : DBState) (i : Nat)
    (h : 0 < commentCount db i) : commentExists db i = true := by
  unfold commentCount at h
  have hne : db.comments.filter (fun r => r.hnId == i) ≠ [] := by
    intro hnil
    rw [hnil] at h
    simp at h
  rcases List.exists_mem_of_ne_nil _ hne with ⟨r, hr⟩
  obtain ⟨hmem, hp⟩ := List.mem_filter.mp hr
  unfold commentExists findComment
  rw [Option.isSome_iff_exists]
  rcases hfind : db.comments.find? (fun r => r.hnId == i) with _ | r2
  · rw [List.find?_eq_none] at hfind
    exact absurd hp (by simpa using hfind r hmem)
  · exact ⟨r2, hfind⟩

theorem commentExists_eq_false_of_count_zero (db : DBState) (i : Nat)
    (h : commentCount db i = 0) : commentExists db i = false := by
  by_cases hx : commentExists db i = true
  · exfalso
    unfold commentExists findComment at hx
    rw [Option.isSome_iff_exists] at hx
    rcases hx with ⟨r, hr⟩
    have hmem := List.mem_of_find?_eq_some hr
    have hp := List.find?_some hr
    have hrf : r ∈ db.comments.filter (fun c => c.hnId == i) := List.mem_filter.mpr ⟨hmem, hp⟩
    unfold commentCount at h
    rw [List.length_eq_zero] at h
    rw [h] at hrf
    exact absurd hrf (List.not_mem_nil r)
  · exact Bool.not_eq_true _ ▸ Bool.of_not_eq_true hx

/-- C6: when a second insert attempt races an existing record for the
same comment source id, the uniqueness violation is caught and treated as
non-fatal — the losing attempt reports `false` without raising and leaves
the state untouched — and exactly one record for that id persists. -/
theorem c6_duplicate_insert_race (ce1 ce2 : CommentEnv) (now1 now2 : Int) (ci : HNItem)
    (sid1 sid2 : Nat) (st1 st2 : Str) (p1 p2 : Option Str) (s : SysState)
    (h : commentCount s.db ci.id = 0) :
    commentCount (processComment ce1 now1 ci sid1 st1 p1 s).2.db ci.id = 1 ∧
    (processComment ce2 now2 ci sid2 st2 p2 (processComment ce1 now1 ci sid1 st1 p1 s).2).1 = false ∧
    (processComment ce2 now2 ci sid2 st2 p2 (processComment ce1 now1 ci sid1 st1 p1 s).2).2 =
      (processComment ce1 now1 ci sid1 st1 p1 s).2 ∧
    commentCount (processComment ce2 now2 ci sid2 st2 p2
      (processComment ce1 now1 ci sid1 st1 p1 s).2).2.db ci.id = 1 := by
  have hex0 := commentExists_eq_false_of_count_zero s.db ci.id h
  have hc1 : commentCount (processComment ce1 now1 ci sid1 st1 p1 s).2.db ci.id = 1 := by
    rw [processComment_count ce1 now1 ci sid1 st1 p1 s hex0, h]
  generalize hX : (processComment ce1 now1 ci sid1 st1 p1 s).2 = X at hc1 ⊢
  have hex1 : commentExists X.db ci.id = true :=
    commentExists_of_count_pos _ _ (by rw [hc1]; omega)
  have h2 : processComment ce2 now2 ci sid2 st2 p2 X = (false, X) := by
    unfold processComment
    rw [if_pos hex1]
  rw [h2]
  exact ⟨hc1, rfl, rfl, hc1⟩

/-- C4 counterexample: candidate 202 already exists in the store, but its
fetched item is older than the configured max age, so the cycle
classifies it `too_old` — not `cached` — and does not refresh its
volatile fields: the state comes back unchanged.  Existence is therefore
not sufficient for the `cached` classification; the claim's "regardless
of the item's age" fails on the code, which checks recency before it
branches on existence. -/
theorem c4_counterexample :
    findStory stateWith202.db 202 = some rec202 ∧
    isRecent cfg0 now0 item202.time = false ∧
    processStoryOnly (storyEnvOk item202) cfg0 now0 stateWith202 202 =
      (StoryResult.too_old, some item202, stateWith202) :=
  ⟨rfl, rfl, rfl⟩

/-- C4 amended: a candidate that already exists in the store is refreshed
in its volatile fields (score, descendant count) and classified `cached`
only when the fetched item is a story still within the configured max
age; when the fetch fails it is classified `cached` with no update; and
when the fetched story is older than the max age it is classified
`too_old` with no update. -/
theorem c4_cached_refresh (env : StoryEnv) (cfg : Config) (now : Int) (s : SysState)
    (hnId : Nat) (ex : StoryRec) (hex : findStory s.db hnId = some ex) :
    (∀ item, env.fetched = some item → item.type = str "story" →
      isRecent cfg now item.time = true →
      processStoryOnly env cfg now s hnId =
        (StoryResult.cached, some item, updateStoryDb s hnId (storyVolatileUpdate item))) ∧
    (∀ item, env.fetched = some item → item.type = str "story" →
      isRecent cfg now item.time = false →
      processStoryOnly env cfg now s hnId = (StoryResult.too_old, some item, s)) ∧
    (env.fetched = none →
      processStoryOnly env cfg now s hnId = (StoryResult.cached, none, s)) ∧
    (∀ item, env.fetched = some item → ¬(item.type = str "story") →
      processStoryOnly env cfg now s hnId = (StoryResult.cached, none, s)) := by
  refine ⟨?_, ?_, ?_, ?_⟩
  · intro item hf ht hr
    unfold processStoryOnly
    rw [hf, hex]
    dsimp only
    rw [if_neg (by simp [ht]), if_neg (by simp [hr])]
  · intro item hf ht hr
    unfold processStoryOnly
    rw [hf, hex]
    dsimp only
    rw [if_neg (by simp [ht]), if_pos (by simp [hr])]
  · intro hf
    unfold processStoryOnly
    rw [hf, hex]
    rfl
  · intro item hf ht
    unfold processStoryOnly
    rw [hf, hex]
    dsimp only
    rw [if_pos (by simp [ht])]
    rfl

theorem c4_cached_refresh_witness :
    findStory stateWith101.db 101 = some rec101 ∧
    processStoryOnly (storyEnvOk item101) cfg0 now0 stateWith101 101 =
      (StoryResult.cached, some item101, updateStoryDb stateWith101 101 (storyVolatileUpdate item101)) :=
  ⟨rfl,
    (c4_cached_refresh (storyEnvOk item101) cfg0 now0 stateWith101 101 rec101 rfl).1
      item101 rfl rfl rfl⟩

theorem c6_duplicate_insert_race_witness :
    commentCount emptyState.db item301.id = 0 ∧
    (processComment commentEnv0 now0 item301 101 (str "Story One") none
      (processComment commentEnv0 now0 item301 101 (str "Story One") none emptyState).2).1 = false :=
  ⟨rfl, (c6_duplicate_insert_race commentEnv0 commentEnv0 now0 now0 item301 101 101
      (str "Story One") (str "Story One") none none emptyState rfl).2.1⟩

theorem processStoryComments_totalProcessed (cenv : CycleEnv) (cfg : Config) (item : HNItem)
    (s : SysState) :
    (processStoryComments cenv cfg item s).2.2.ws.totalProcessed = s.ws.totalProcessed :=
  (processStoryComments_frame cenv cfg item s).2.1

theorem processStoryComments_stories (cenv : CycleEnv) (cfg : Config) (item : HNItem)
    (s : SysState) :
    (processStoryComments cenv cfg item s).2.2.db.stories = s.db.stories :=
  (processStoryComments_frame cenv cfg item s).1

theorem processStoryComments_errors (cenv : CycleEnv) (cfg : Config) (item : HNItem)
    (s : SysState) :
    (processStoryComments cenv cfg item s).2.2.ws.errors = s.ws.errors :=
  (processStoryComments_frame cenv cfg item s).2.2

theorem processStoryOnly_totalProcessed (env : StoryEnv) (cfg : Config) (now : Int)
    (s : SysState) (hnId : Nat) :
    (processStoryOnly env cfg now s hnId).2.2.ws.totalProcessed =
      s.ws.totalProcessed +
        (if (processStoryOnly env cfg now s hnId).1 = StoryResult.new then 1 else 0) := by
  cases hf : env.fetched with
  | none =>
    simp only [processStoryOnly, hf]
    by_cases he : (findStory s.db hnId).isSome = true <;> simp [he]
  | some item =>
    by_cases ht : (item.type == str "story") = true
    · by_cases hr : isRecent cfg now item.time = true
      · cases he : findStory s.db hnId with
        | some ex =>
          simp only [processStoryOnly, hf, ht, hr, he, Bool.not_true, Bool.false_eq_true,
            if_false]
          simp
        | none =>
          simp only [processStoryOnly, hf, ht, hr, he, Bool.not_true, Bool.false_eq_true,
            if_false]
          by_cases htxt : (storyTextForAnalysis item).length > 0
          · rw [if_pos htxt]
            cases ha : env.analysis with
            | error msg => simp
            | ok a =>
              cases hemb : env.embedding with
              | error msg => simp
              | ok emb => simp
          · rw [if_neg htxt]
            simp
      · simp only [processStoryOnly, hf, ht, hr]
        simp
    · simp only [processStoryOnly, hf, ht]
      by_cases he : (findStory s.db hnId).isSome = true <;> simp [he]

theorem cycleStep_totalProcessed (cenv : CycleEnv) (cfg : Config) (acc : CycleAcc)
    (hnId : Nat) :
    (cycleStep cenv cfg acc hnId).s.ws.totalProcessed + acc.ingested =
      acc.s.ws.totalProcessed + 1 + (cycleStep cenv cfg acc hnId).ingested := by
  have hp := processStoryOnly_totalProcessed (cenv.story hnId) cfg cenv.now
    (incCycleCurrent acc.s) hnId
  rw [incCycleCurrent_totalProcessed] at hp
  simp only [cycleStep]
  split
  · split
    · simp only [processStoryComments_totalProcessed, setCurrentlyProcessing_totalProcessed,
        bumpCounts_s, bumpCounts_ingested, incTotalProcessed_totalProcessed]
      rw [hp]
      by_cases hnew : (processStoryOnly (cenv.story hnId) cfg cenv.now
          (incCycleCurrent acc.s) hnId).1 = StoryResult.new <;> simp [hnew] <;> omega
    · simp only [bumpCounts_s, bumpCounts_ingested, incTotalProcessed_totalProcessed]
      rw [hp]
      by_cases hnew : (processStoryOnly (cenv.story hnId) cfg cenv.now
          (incCycleCurrent acc.s) hnId).1 = StoryResult.new <;> simp [hnew] <;> omega
  · simp only [bumpCounts_s, bumpCounts_ingested, incTotalProcessed_totalProcessed]
    rw [hp]
    by_cases hnew : (processStoryOnly (cenv.story hnId) cfg cenv.now
        (incCycleCurrent acc.s) hnId).1 = StoryResult.new <;> simp [hnew] <;> omega

theorem cycleFold_totalProcessed (cenv : CycleEnv) (cfg : Config) :
    ∀ (l : List Nat) (acc : CycleAcc),
    (l.foldl (cycleStep cenv cfg) acc).s.ws.totalProcessed + acc.ingested =
      acc.s.ws.totalProcessed + l.length + (l.foldl (cycleStep cenv cfg) acc).ingested := by
  intro l
  induction l with
  | nil => intro acc; simp
  | cons x rest ih =>
    intro acc
    rw [List.foldl_cons]
    have h1 := cycleStep_totalProcessed cenv cfg acc x
    have h2 := ih (cycleStep cenv cfg acc x)
    simp only [List.length_cons]
    omega

/-- C10: over one ingestion cycle the cumulative `totalProcessed` counter
grows by the number of candidates processed plus the number classified
`new`: the per-candidate loop increments it once for every candidate and
`processStoryOnly` increments it again inside the new-story branch, so
the counter overcounts new stories relative to candidates seen. -/
theorem c10_totalProcessed_overcount (cenv : CycleEnv) (cfg : Config) (s : SysState) :
    (runIngestionCycle cenv cfg s).2.ws.totalProcessed =
      s.ws.totalProcessed + (cycleCandidates cenv cfg).length +
        (runIngestionCycle cenv cfg s).1.ingested := by
  unfold runIngestionCycle
  have h := cycleFold_totalProcessed cenv cfg (cycleCandidates cenv cfg)
    { s := setCycleProgress s (cycleCandidates cenv cfg).length, ingested := 0, skipped := 0,
      tooOld := 0, errors := 0, commentsProcessed := 0, newComments := 0 }
  simp only [setCycleProgress_totalProcessed] at h
  dsimp only
  omega

theorem envConsistentB_spec {cenv : CycleEnv} {l : List Nat}
    (h : envConsistentB cenv l = true) :
    ∀ j ∈ l, ∀ it, (cenv.story j).fetched = some it → it.id = j := by
  intro j hj it hit
  unfold envConsistentB at h
  rw [List.all_eq_true] at h
  have := h j hj
  rw [hit] at this
  simpa using this

theorem length_filter_keyed_map_stories (f : StoryRec → StoryRec) (k i : Nat)
    (hf : ∀ r, (f r).hnId = r.hnId) :
    ∀ l : List StoryRec,
    ((l.map (fun r => if r.hnId == k then f r else r)).filter (fun r => r.hnId == i)).length =
      (l.filter (fun r => r.hnId == i)).length := by
  intro l
  induction l with
  | nil => rfl
  | cons x rest ih =>
    rw [List.map_cons]
    by_cases hk : (x.hnId == k) = true
    · rw [if_pos hk, List.filter_cons, List.filter_cons]
      have h1 : ((f x).hnId == i) = (x.hnId == i) := by rw [hf]
      rw [h1]
      by_cases hi : (x.hnId == i) = true
      · rw [if_pos hi, if_pos hi, List.length_cons, List.length_cons, ih]
      · rw [if_neg hi, if_neg hi]; exact ih
    · rw [if_neg hk, List.filter_cons, List.filter_cons]
      by_cases hi : (x.hnId == i) = true
      · rw [if_pos hi, if_pos hi, List.length_cons, List.length_cons, ih]
      · rw [if_neg hi, if_neg hi]; exact ih

theorem processStoryOnly_too_old (env : StoryEnv) (cfg : Config) (now : Int) (s : SysState)
    (hnId : Nat) (item : HNItem) (hf : env.fetched = some item)
    (ht : item.type = str "story") (hr : isRecent cfg now item.time = false) :
    processStoryOnly env cfg now s hnId = (StoryResult.too_old, some item, s) := by
  unfold processStoryOnly
  rw [hf]
  dsimp only
  rw [if_neg (by simp [ht]), if_pos (by simp [hr])]

theorem processStoryOnly_storyCount_ne (env : StoryEnv) (cfg : Config) (now : Int)
    (s : SysState) (hnId i : Nat)
    (hid : ∀ it, env.fetched = some it → it.id = hnId) (hne : i ≠ hnId) :
    storyCount (processStoryOnly env cfg now s hnId).2.2.db i = storyCount s.db i := by
  cases hf : env.fetched with
  | none => simp only [processStoryOnly, hf]
  | some item =>
    have hitem : item.id = hnId := hid item hf
    by_cases ht : (item.type == str "story") = true
    · by_cases hr : isRecent cfg now item.time = true
      · cases he : findStory s.db hnId with
        | some ex =>
          simp only [processStoryOnly, hf, ht, hr, he, Bool.not_true, Bool.false_eq_true,
            if_false]
          unfold storyCount
          simp only [updateStoryDb_stories]
          exact length_filter_keyed_map_stories (storyVolatileUpdate item) hnId i (fun r => rfl) _
        | none =>
          simp only [processStoryOnly, hf, ht, hr, he, Bool.not_true, Bool.false_eq_true,
            if_false]
          have hbase : storyCount (addStoryDb (setCurrentlyProcessing s
              (some (jsOrStr item.title (str "story " ++ natStr hnId)))) (mkStoryRec item)).db i =
              storyCount s.db i := by
            unfold storyCount
            rw [addStoryDb_stories, List.filter_append]
            have : ((mkStoryRec item).hnId == i) = false := by
              show (item.id == i) = false
              rw [hitem]
              simp
              omega
            simp [this]
          by_cases htxt : (storyTextForAnalysis item).length > 0
          · rw [if_pos htxt]
            cases ha : env.analysis with
            | error msg => simpa [storyCount] using hbase
            | ok a =>
              cases hemb : env.embedding with
              | error msg => simpa [storyCount] using hbase
              | ok emb =>
                unfold storyCount
                simp only [incTotalProcessed_db, incTotalEmbedded_db, addChromaStory_db,
                  updateStoryDb_stories]
                rw [length_filter_keyed_map_stories (storyAnalysisUpdate a now) item.id i
                  (fun r => rfl)]
                exact hbase
          · rw [if_neg htxt]
            simpa [storyCount] using hbase
      · simp only [processStoryOnly, hf, ht, hr]
        simp
    · simp only [processStoryOnly, hf, ht]
      by_cases he : (findStory s.db hnId).isSome = true <;> simp [he]

theorem storyCount_congr {db1 db2 : DBState} (i : Nat)
    (h : db1.stories = db2.stories) : storyCount db1 i = storyCount db2 i := by
  unfold storyCount
  rw [h]

theorem processStoryOnly_storyCount_pres (env : StoryEnv) (cfg : Config) (now : Int)
    (s : SysState) (hnId i : Nat)
    (hid : ∀ it, env.fetched = some it → it.id = hnId)
    (hstale : i = hnId → ∀ it, env.fetched = some it →
      it.type = str "story" ∧ isRecent cfg now it.time = false) :
    storyCount (processStoryOnly env cfg now s hnId).2.2.db i = storyCount s.db i := by
  by_cases hij : i = hnId
  · subst hij
    cases hf : env.fetched with
    | none => simp only [processStoryOnly, hf]
    | some it =>
      obtain ⟨ht, hr⟩ := hstale rfl it hf
      rw [processStoryOnly_too_old env cfg now s i it hf ht hr]
  · exact processStoryOnly_storyCount_ne env cfg now s hnId i hid hij

theorem cycleStep_storyCount (cenv : CycleEnv) (cfg : Config) (acc : CycleAcc) (j i : Nat)
    (hid : ∀ it, (cenv.story j).fetched = some it → it.id = j)
    (hstale : i = j → ∀ it, (cenv.story j).fetched = some it →
      it.type = str "story" ∧ isRecent cfg cenv.now it.time = false) :
    storyCount (cycleStep cenv cfg acc j).s.db i = storyCount acc.s.db i := by
  have hp := processStoryOnly_storyCount_pres (cenv.story j) cfg cenv.now
    (incCycleCurrent acc.s) j i hid hstale
  simp only [cycleStep]
  split
  · split
    · exact (storyCount_congr i (processStoryComments_stories cenv cfg _ _)).trans hp
    · exact hp
  · exact hp

theorem cycleFold_storyCount (cenv : CycleEnv) (cfg : Config) (i : Nat) :
    ∀ (l : List Nat) (acc : CycleAcc),
    (∀ j ∈ l, ∀ it, (cenv.story j).fetched = some it → it.id = j) →
    (∀ it, (cenv.story i).fetched = some it →
      it.type = str "story" ∧ isRecent cfg cenv.now it.time = false) →
    storyCount ((l.foldl (cycleStep cenv cfg) acc).s.db) i = storyCount acc.s.db i := by
  intro l
  induction l with
  | nil => intro acc _ _; rfl
  | cons x rest ih =>
    intro acc hcons hstale
    rw [List.foldl_cons]
    have h1 := cycleStep_storyCount cenv cfg acc x i
      (hcons x (List.mem_cons_self x rest))
      (fun hix it hit => hstale it (by rw [← hix] at hit; exact hit))
    have h2 := ih (cycleStep cenv cfg acc x)
      (fun j hj => hcons j (List.mem_cons_of_mem x hj)) hstale
    rw [h2, h1]

/-- C2: a candidate not yet in the item store whose fetched story is
older than the configured maximum age is classified `too_old` and no
record is created for it — `processStoryOnly` returns the state
untouched, and the story-record count for that id is still zero when the
whole cycle completes. -/
theorem c2_too_old_not_stored (cenv : CycleEnv) (cfg : Config) (s : SysState) (i : Nat)
    (it : HNItem)
    (hcount : storyCount s.db i = 0)
    (hcons : envConsistentB cenv (cycleCandidates cenv cfg) = true)
    (hf : (cenv.story i).fetched = some it)
    (ht : it.type = str "story")
    (hr : isRecent cfg cenv.now it.time = false) :
    (∀ s' : SysState, processStoryOnly (cenv.story i) cfg cenv.now s' i =
      (StoryResult.too_old, some it, s')) ∧
    storyCount (runIngestionCycle cenv cfg s).2.db i = 0 := by
  constructor
  · intro s'
    exact processStoryOnly_too_old (cenv.story i) cfg cenv.now s' i it hf ht hr
  · unfold runIngestionCycle
    dsimp only
    rw [cycleFold_storyCount cenv cfg i (cycleCandidates cenv cfg) _
      (envConsistentB_spec hcons)
      (fun it2 hit2 => by
        rw [hf] at hit2
        injection hit2 with h2
        rw [← h2]
        exact ⟨ht, hr⟩)]
    exact hcount

theorem c2_too_old_not_stored_witness :
    storyCount emptyState.db 202 = 0 ∧
    envConsistentB cenv0 (cycleCandidates cenv0 cfg0) = true ∧
    (cenv0.story 202).fetched = some item202 ∧
    item202.type = str "story" ∧
    isRecent cfg0 cenv0.now item202.time = false ∧
    storyCount (runIngestionCycle cenv0 cfg0 emptyState).2.db 202 = 0 :=
  ⟨rfl, by decide, rfl, rfl, by decide,
   (c2_too_old_not_stored cenv0 cfg0 emptyState 202 item202 rfl (by decide) rfl rfl
      (by decide)).2⟩

theorem mem_insertTimeDesc {α : Type} (time : α → Int) (x : α) :
    ∀ (l : List α) (y : α), y ∈ insertTimeDesc time x l → y = x ∨ y ∈ l := by
  intro l
  induction l with
  | nil =>
    intro y hy
    unfold insertTimeDesc at hy
    exact Or.inl (List.mem_singleton.mp hy)
  | cons z zs ih =>
    intro y hy
    unfold insertTimeDesc at hy
    by_cases hc : time x > time z
    · rw [if_pos hc] at hy
      rcases List.mem_cons.mp hy with h | h
      · exact Or.inl h
      · exact Or.inr h
    · rw [if_neg hc] at hy
      rcases List.mem_cons.mp hy with h | h
      · exact Or.inr (h ▸ List.mem_cons_self _ _)
      · rcases ih y h with h2 | h2
        · exact Or.inl h2
        · exact Or.inr (List.mem_cons_of_mem _ h2)

theorem mem_sortTimeDesc {α : Type} (time : α → Int) :
    ∀ (l : List α) (y : α), y ∈ sortTimeDesc time l → y ∈ l := by
  intro l
  induction l with
  | nil => intro y hy; exact hy
  | cons z zs ih =>
    intro y hy
    unfold sortTimeDesc at hy
    rw [List.foldr_cons] at hy
    rcases mem_insertTimeDesc time z _ y hy with h | h
    · exact h ▸ List.mem_cons_self _ _
    · exact List.mem_cons_of_mem _ (ih y h)

theorem selectStaleStories_spec (o : RegenOptions) (target : Str) (db : DBState) :
    ∀ r ∈ selectStaleStories o target db, r ∈ db.stories ∧ storyStale target o r = true := by
  intro r hr
  unfold selectStaleStories at hr
  have h1 := List.mem_of_mem_take hr
  have h2 := mem_sortTimeDesc _ _ _ h1
  exact ⟨(List.mem_filter.mp h2).1, (List.mem_filter.mp h2).2⟩

theorem selectStaleComments_spec (o : RegenOptions) (target : Str) (db : DBState) :
    ∀ r ∈ selectStaleComments o target db, r ∈ db.comments ∧ commentStale target o r = true := by
  intro r hr
  unfold selectStaleComments at hr
  have h1 := List.mem_of_mem_take hr
  have h2 := mem_sortTimeDesc _ _ _ h1
  exact ⟨(List.mem_filter.mp h2).1, (List.mem_filter.mp h2).2⟩

theorem selectStaleStories_nil (o : RegenOptions) (target : Str) (db : DBState)
    (h : ∀ r ∈ db.stories, r.embedded = true → r.analysisVersion = some target) :
    selectStaleStories o target db = [] := by
  unfold selectStaleStories
  have hf : db.stories.filter (storyStale target o) = [] := by
    rw [List.filter_eq_nil_iff]
    intro a ha
    unfold storyStale
    intro hcon
    rw [Bool.and_eq_true, Bool.and_eq_true] at hcon
    obtain ⟨⟨hemb, hne⟩, _⟩ := hcon
    rw [h a ha hemb] at hne
    simp at hne
  rw [hf]
  simp [sortTimeDesc]

theorem selectStaleComments_nil (o : RegenOptions) (target : Str) (db : DBState)
    (h : ∀ r ∈ db.comments, r.embedded = true → r.analysisVersion = some target) :
    selectStaleComments o target db = [] := by
  unfold selectStaleComments
  have hf : db.comments.filter (commentStale target o) = [] := by
    rw [List.filter_eq_nil_iff]
    intro a ha
    unfold commentStale
    intro hcon
    rw [Bool.and_eq_true, Bool.and_eq_true] at hcon
    obtain ⟨⟨hemb, hne⟩, _⟩ := hcon
    rw [h a ha hemb] at hne
    simp at hne
  rw [hf]
  simp [sortTimeDesc]

/-- C8: a regeneration run selects only previously-analyzed (embedded)
records whose stored analysis version differs from the target, so when
every embedded record already carries the target version it selects and
regenerates zero items and leaves the state untouched. -/
theorem c8_regen_zero_when_current (o : RegenOptions) (renv : RegenEnv) (s : SysState)
    (target : Str) (hver : resolveVersion o = target)
    (hs : ∀ r ∈ s.db.stories, r.embedded = true → r.analysisVersion = some target)
    (hc : ∀ r ∈ s.db.comments, r.embedded = true → r.analysisVersion = some target) :
    (∀ db2 : DBState, ∀ r ∈ selectStaleStories o target db2,
       r.embedded = true ∧ ¬(r.analysisVersion = some target)) ∧
    (∀ db2 : DBState, ∀ r ∈ selectStaleComments o target db2,
       r.embedded = true ∧ ¬(r.analysisVersion = some target)) ∧
    runRegeneration o renv s =
      ({ storiesRegenerated := 0, commentsRegenerated := 0, errors := [] }, s) := by
  refine ⟨?_, ?_, ?_⟩
  · intro db2 r hr
    have h2 := (selectStaleStories_spec o target db2 r hr).2
    unfold storyStale at h2
    rw [Bool.and_eq_true, Bool.and_eq_true] at h2
    obtain ⟨⟨hemb, hne⟩, _⟩ := h2
    exact ⟨hemb, by simpa using hne⟩
  · intro db2 r hr
    have h2 := (selectStaleComments_spec o target db2 r hr).2
    unfold commentStale at h2
    rw [Bool.and_eq_true, Bool.and_eq_true] at h2
    obtain ⟨⟨hemb, hne⟩, _⟩ := h2
    exact ⟨hemb, by simpa using hne⟩
  · simp only [runRegeneration]
    rw [hver]
    rw [selectStaleStories_nil o target s.db hs]
    simp only [List.foldl_nil, ite_self]
    rw [selectStaleComments_nil o target s.db hc]
    simp only [List.foldl_nil, ite_self]

theorem c8_regen_zero_when_current_witness :
    resolveVersion regenOpts0 = str "6" ∧
    (∀ r ∈ stateAnalyzed.db.stories, r.embedded = true → r.analysisVersion = some (str "6")) ∧
    (∀ r ∈ stateAnalyzed.db.comments, r.embedded = true → r.analysisVersion = some (str "6")) ∧
    runRegeneration regenOpts0 renv0 stateAnalyzed =
      ({ storiesRegenerated := 0, commentsRegenerated := 0, errors := [] }, stateAnalyzed) :=
  ⟨rfl, by decide, by decide,
   (c8_regen_zero_when_current regenOpts0 renv0 stateAnalyzed (str "6") rfl
      (by decide) (by decide)).2.2⟩

theorem othersOkB_spec {cenv : CycleEnv} {l : List Nat} {i : Nat}
    (h : othersOkB cenv l i = true) :
    ∀ j ∈ l, j ≠ i → storyEnvOkB (cenv.story j) = true := by
  intro j hj hne
  unfold othersOkB at h
  rw [List.all_eq_true] at h
  have := h j hj
  rw [Bool.or_eq_true] at this
  rcases this with h1 | h1
  · exact absurd (by simpa using h1) hne
  · exact h1

theorem mem_pushErrList (errs : List Str) (e : Str) : e ∈ pushErrList errs e := by
  unfold pushErrList
  by_cases h : (errs ++ [e]).length > 50
  · rw [if_pos h]
    cases errs with
    | nil => simp at h
    | cons x t =>
      rw [List.cons_append, List.drop_succ_cons, List.drop_zero]
      exact List.mem_append_right _ (List.mem_singleton_self e)
  · rw [if_neg h]
    exact List.mem_append_right _ (List.mem_singleton_self e)


theorem findStory_eq_none_of_count_zero (db : DBState) (i : Nat)
    (h : storyCount db i = 0) : findStory db i = none := by
  unfold storyCount at h
  rw [List.length_eq_zero, List.filter_eq_nil_iff] at h
  unfold findStory
  rw [List.find?_eq_none]
  intro x hx
  simpa using h x hx

theorem findStory_isSome_of_unanalyzed {db : DBState} {i : Nat}
    (h : unanalyzedStoryAt db i) : (findStory db i).isSome = true := by
  obtain ⟨r, hr, hid, _, _⟩ := h
  unfold findStory
  cases hfind : db.stories.find? (fun r => r.hnId == i) with
  | some x => rfl
  | none =>
    rw [List.find?_eq_none] at hfind
    exact absurd (by simp [hid]) (hfind r hr)

theorem processStoryOnly_new_analysis_fail (env : StoryEnv) (cfg : Config) (now : Int)
    (s : SysState) (hnId : Nat) (it : HNItem) (msg : Str)
    (hnone : findStory s.db hnId = none)
    (hf : env.fetched = some it) (ht : it.type = str "story")
    (hr : isRecent cfg now it.time = true)
    (htxt : (storyTextForAnalysis it).length > 0)
    (ha : env.analysis = Except.error msg) :
    processStoryOnly env cfg now s hnId =
      (StoryResult.new, some it,
        incTotalProcessed (pushErr (addStoryDb (setCurrentlyProcessing s
          (some (jsOrStr it.title (str "story " ++ natStr hnId)))) (mkStoryRec it))
          (analysisErrEntry hnId msg))) := by
  unfold processStoryOnly
  rw [hf, hnone]
  dsimp only
  rw [if_neg (by simp [ht]), if_neg (by simp [hr]), if_pos htxt, ha]

theorem processStoryOnly_errors_eq (env : StoryEnv) (cfg : Config) (now : Int)
    (s : SysState) (hnId : Nat)
    (hok : storyEnvOkB env = true ∨ (findStory s.db hnId).isSome = true) :
    (processStoryOnly env cfg now s hnId).2.2.ws.errors = s.ws.errors := by
  cases hf : env.fetched with
  | none => simp only [processStoryOnly, hf]
  | some item =>
    by_cases ht : (item.type == str "story") = true
    · by_cases hr : isRecent cfg now item.time = true
      · cases he : findStory s.db hnId with
        | some ex =>
          simp only [processStoryOnly, hf, ht, hr, he, Bool.not_true, Bool.false_eq_true,
            if_false]
          simp
        | none =>
          rcases hok with hok | hok
          · unfold storyEnvOkB at hok
            rw [Bool.and_eq_true] at hok
            obtain ⟨ha, hemb⟩ := hok
            simp only [processStoryOnly, hf, ht, hr, he, Bool.not_true, Bool.false_eq_true,
              if_false]
            by_cases htxt : (storyTextForAnalysis item).length > 0
            · rw [if_pos htxt]
              cases ha2 : env.analysis with
              | error m => rw [ha2] at ha; simp [Except.isOk, Except.toBool] at ha
              | ok a =>
                cases he2 : env.embedding with
                | error m => rw [he2] at hemb; simp [Except.isOk, Except.toBool] at hemb
                | ok emb => simp
            · rw [if_neg htxt]
              simp
          · rw [he] at hok
            simp at hok
      · simp only [processStoryOnly, hf, ht, hr]
        simp
    · simp only [processStoryOnly, hf, ht]
      simp

theorem unanalyzed_keyed_update_ne (l : List StoryRec) (k i : Nat) (f : StoryRec → StoryRec)
    (hne : i ≠ k)
    (h : ∃ r ∈ l, r.hnId = i ∧ r.embedded = false ∧ r.analysisVersion = none) :
    ∃ r ∈ l.map (fun r => if r.hnId == k then f r else r),
      r.hnId = i ∧ r.embedded = false ∧ r.analysisVersion = none := by
  obtain ⟨r, hr, h1, h2, h3⟩ := h
  refine ⟨if r.hnId == k then f r else r, List.mem_map_of_mem _ hr, ?_⟩
  have hk : (r.hnId == k) = false := by
    rw [h1]
    simp
    omega
  rw [if_neg (by simp [hk])]
  exact ⟨h1, h2, h3⟩

theorem unanalyzed_keyed_update (l : List StoryRec) (k i : Nat) (f : StoryRec → StoryRec)
    (hf : ∀ r, (f r).hnId = r.hnId ∧ (f r).embedded = r.embedded ∧
      (f r).analysisVersion = r.analysisVersion)
    (h : ∃ r ∈ l, r.hnId = i ∧ r.embedded = false ∧ r.analysisVersion = none) :
    ∃ r ∈ l.map (fun r => if r.hnId == k then f r else r),
      r.hnId = i ∧ r.embedded = false ∧ r.analysisVersion = none := by
  obtain ⟨r, hr, h1, h2, h3⟩ := h
  refine ⟨if r.hnId == k then f r else r, List.mem_map_of_mem _ hr, ?_⟩
  by_cases hk : (r.hnId == k) = true
  · rw [if_pos hk]
    exact ⟨(hf r).1.trans h1, (hf r).2.1.trans h2, (hf r).2.2.trans h3⟩
  · rw [if_neg hk]
    exact ⟨h1, h2, h3⟩

theorem processStoryOnly_unanalyzed_pres (env : StoryEnv) (cfg : Config) (now : Int)
    (s : SysState) (hnId i : Nat)
    (hid : ∀ it, env.fetched = some it → it.id = hnId)
    (h : unanalyzedStoryAt s.db i) :
    unanalyzedStoryAt (processStoryOnly env cfg now s hnId).2.2.db i := by
  cases hf : env.fetched with
  | none => simpa only [processStoryOnly, hf] using h
  | some item =>
    have hitem : item.id = hnId := hid item hf
    by_cases ht : (item.type == str "story") = true
    · by_cases hr : isRecent cfg now item.time = true
      · cases he : findStory s.db hnId with
        | some ex =>
          simp only [processStoryOnly, hf, ht, hr, he, Bool.not_true, Bool.false_eq_true,
            if_false]
          unfold unanalyzedStoryAt at h ⊢
          simp only [updateStoryDb_stories]
          exact unanalyzed_keyed_update _ hnId i _ (fun r => ⟨rfl, rfl, rfl⟩) h
        | none =>
          by_cases hin : i = hnId
          · exfalso
            subst hin
            have := findStory_isSome_of_unanalyzed h
            rw [he] at this
            simp at this
          · simp only [processStoryOnly, hf, ht, hr, he, Bool.not_true, Bool.false_eq_true,
              if_false]
            obtain ⟨r, hrm, h1, h2, h3⟩ := h
            have hbase : ∃ r2 ∈ (addStoryDb (setCurrentlyProcessing s
                (some (jsOrStr item.title (str "story " ++ natStr hnId))))
                (mkStoryRec item)).db.stories,
                r2.hnId = i ∧ r2.embedded = false ∧ r2.analysisVersion = none := by
              rw [addStoryDb_stories]
              exact ⟨r, List.mem_append_left _ hrm, h1, h2, h3⟩
            by_cases htxt : (storyTextForAnalysis item).length > 0
            · rw [if_pos htxt]
              cases ha : env.analysis with
              | error msg => exact hbase
              | ok a =>
                cases hemb : env.embedding with
                | error msg => exact hbase
                | ok emb =>
                  unfold unanalyzedStoryAt
                  simp only [incTotalProcessed_db, incTotalEmbedded_db, addChromaStory_db,
                    updateStoryDb_stories]
                  exact unanalyzed_keyed_update_ne _ item.id i _
                    (by rw [hitem]; exact hin) hbase
            · rw [if_neg htxt]
              exact hbase
      · simpa only [processStoryOnly, hf, ht, hr] using h
    · simpa only [processStoryOnly, hf, ht] using h

theorem cycleStep_right_pres (cenv : CycleEnv) (cfg : Config) (acc : CycleAcc) (j i : Nat)
    (e : Str)
    (hid : ∀ it, (cenv.story j).fetched = some it → it.id = j)
    (hok : j ≠ i → storyEnvOkB (cenv.story j) = true)
    (h1 : unanalyzedStoryAt acc.s.db i)
    (h2 : e ∈ acc.s.ws.errors) :
    unanalyzedStoryAt (cycleStep cenv cfg acc j).s.db i ∧
    e ∈ (cycleStep cenv cfg acc j).s.ws.errors := by
  have hpres := processStoryOnly_unanalyzed_pres (cenv.story j) cfg cenv.now
    (incCycleCurrent acc.s) j i hid h1
  have hokd : storyEnvOkB (cenv.story j) = true ∨
      (findStory (incCycleCurrent acc.s).db j).isSome = true := by
    by_cases hji : j = i
    · refine Or.inr ?_
      subst hji
      exact findStory_isSome_of_unanalyzed h1
    · exact Or.inl (hok hji)
  have herr : (processStoryOnly (cenv.story j) cfg cenv.now
      (incCycleCurrent acc.s) j).2.2.ws.errors = acc.s.ws.errors :=
    (processStoryOnly_errors_eq (cenv.story j) cfg cenv.now (incCycleCurrent acc.s) j
      hokd).trans (incCycleCurrent_errors acc.s)
  simp only [cycleStep]
  split
  · split
    · constructor
      · obtain ⟨r, hr, hh⟩ := hpres
        refine ⟨r, ?_, hh⟩
        rw [processStoryComments_stories]
        exact hr
      · rw [processStoryComments_errors]
        simp only [setCurrentlyProcessing_errors, bumpCounts_s, incTotalProcessed_errors]
        rw [herr]
        exact h2
    · refine ⟨hpres, ?_⟩
      simp only [bumpCounts_s, incTotalProcessed_errors]
      rw [herr]
      exact h2
  · refine ⟨hpres, ?_⟩
    simp only [bumpCounts_s, incTotalProcessed_errors]
    rw [herr]
    exact h2

theorem cycleFold_right_pres (cenv : CycleEnv) (cfg : Config) (i : Nat) (e : Str) :
    ∀ (l : List Nat) (acc : CycleAcc),
    (∀ j ∈ l, ∀ it, (cenv.story j).fetched = some it → it.id = j) →
    (∀ j ∈ l, j ≠ i → storyEnvOkB (cenv.story j) = true) →
    unanalyzedStoryAt acc.s.db i → e ∈ acc.s.ws.errors →
    unanalyzedStoryAt ((l.foldl (cycleStep cenv cfg) acc).s.db) i ∧
    e ∈ ((l.foldl (cycleStep cenv cfg) acc).s.ws.errors) := by
  intro l
  induction l with
  | nil => intro acc _ _ h1 h2; exact ⟨h1, h2⟩
  | cons x rest ih =>
    intro acc hcons hok h1 h2
    rw [List.foldl_cons]
    obtain ⟨g1, g2⟩ := cycleStep_right_pres cenv cfg acc x i e
      (hcons x (List.mem_cons_self x rest))
      (hok x (List.mem_cons_self x rest)) h1 h2
    exact ih (cycleStep cenv cfg acc x)
      (fun j hj => hcons j (List.mem_cons_of_mem x hj))
      (fun j hj => hok j (List.mem_cons_of_mem x hj)) g1 g2

theorem cycleStep_i_fail (cenv : CycleEnv) (cfg : Config) (acc : CycleAcc) (i : Nat)
    (it : HNItem) (msg : Str)
    (hf : (cenv.story i).fetched = some it) (hid : it.id = i)
    (ht : it.type = str "story") (hr : isRecent cfg cenv.now it.time = true)
    (htxt : (storyTextForAnalysis it).length > 0)
    (ha : (cenv.story i).analysis = Except.error msg)
    (hL : storyCount acc.s.db i = 0) :
    unanalyzedStoryAt (cycleStep cenv cfg acc i).s.db i ∧
    analysisErrEntry i msg ∈ (cycleStep cenv cfg acc i).s.ws.errors := by
  have hnone : findStory (incCycleCurrent acc.s).db i = none :=
    findStory_eq_none_of_count_zero _ _ hL
  have hps := processStoryOnly_new_analysis_fail (cenv.story i) cfg cenv.now
    (incCycleCurrent acc.s) i it msg hnone hf ht hr htxt ha
  simp only [cycleStep, hps, eq_self_iff_true, true_or, if_true]
  constructor
  · refine ⟨mkStoryRec it, ?_, by simp [mkStoryRec, hid], rfl, rfl⟩
    rw [processStoryComments_stories]
    simp only [setCurrentlyProcessing_db, bumpCounts_s, incTotalProcessed_db, pushErr_db]
    rw [addStoryDb_stories]
    exact List.mem_append_right _ (List.mem_singleton_self _)
  · rw [processStoryComments_errors]
    simp only [setCurrentlyProcessing_errors, bumpCounts_s, incTotalProcessed_errors,
      pushErr_errors]
    exact mem_pushErrList _ _

theorem cycleStep_counts_sum (cenv : CycleEnv) (cfg : Config) (acc : CycleAcc) (j : Nat) :
    (cycleStep cenv cfg acc j).ingested + (cycleStep cenv cfg acc j).skipped +
      (cycleStep cenv cfg acc j).tooOld + (cycleStep cenv cfg acc j).errors =
    acc.ingested + acc.skipped + acc.tooOld + acc.errors + 1 := by
  simp only [cycleStep]
  split
  · split
    · exact bumpCounts_sum _ _
    · exact bumpCounts_sum _ _
  · exact bumpCounts_sum _ _

theorem cycleFold_counts_sum (cenv : CycleEnv) (cfg : Config) :
    ∀ (l : List Nat) (acc : CycleAcc),
    (l.foldl (cycleStep cenv cfg) acc).ingested + (l.foldl (cycleStep cenv cfg) acc).skipped +
      (l.foldl (cycleStep cenv cfg) acc).tooOld + (l.foldl (cycleStep cenv cfg) acc).errors =
    acc.ingested + acc.skipped + acc.tooOld + acc.errors + l.length := by
  intro l
  induction l with
  | nil => intro acc; simp
  | cons x rest ih =>
    intro acc
    rw [List.foldl_cons]
    have h1 := cycleStep_counts_sum cenv cfg acc x
    have h2 := ih (cycleStep cenv cfg acc x)
    simp only [List.length_cons]
    omega

theorem cycleFold_c7 (cenv : CycleEnv) (cfg : Config) (i : Nat) (it : HNItem) (msg : Str)
    (hf : (cenv.story i).fetched = some it) (hid0 : it.id = i)
    (ht : it.type = str "story") (hr : isRecent cfg cenv.now it.time = true)
    (htxt : (storyTextForAnalysis it).length > 0)
    (ha : (cenv.story i).analysis = Except.error msg) :
    ∀ (l : List Nat) (acc : CycleAcc),
    (∀ j ∈ l, ∀ it2, (cenv.story j).fetched = some it2 → it2.id = j) →
    (∀ j ∈ l, j ≠ i → storyEnvOkB (cenv.story j) = true) →
    i ∈ l →
    storyCount acc.s.db i = 0 →
    unanalyzedStoryAt ((l.foldl (cycleStep cenv cfg) acc).s.db) i ∧
    analysisErrEntry i msg ∈ ((l.foldl (cycleStep cenv cfg) acc).s.ws.errors) := by
  intro l
  induction l with
  | nil => intro acc _ _ hmem _; exact absurd hmem (List.not_mem_nil i)
  | cons x rest ih =>
    intro acc hcons hok hmem hL
    rw [List.foldl_cons]
    by_cases hxi : x = i
    · subst hxi
      obtain ⟨g1, g2⟩ := cycleStep_i_fail cenv cfg acc x it msg hf hid0 ht hr htxt ha hL
      exact cycleFold_right_pres cenv cfg x _ rest _
        (fun j hj => hcons j (List.mem_cons_of_mem x hj))
        (fun j hj => hok j (List.mem_cons_of_mem x hj)) g1 g2
    · have hmem2 : i ∈ rest := by
        rcases List.mem_cons.mp hmem with h | h
        · exact absurd h.symm hxi
        · exact h
      have hL2 : storyCount (cycleStep cenv cfg acc x).s.db i = 0 := by
        rw [cycleStep_storyCount cenv cfg acc x i
          (hcons x (List.mem_cons_self x rest))
          (fun hij => absurd hij (fun hh => hxi hh.symm))]
        exact hL
      exact ih (cycleStep cenv cfg acc x)
        (fun j hj => hcons j (List.mem_cons_of_mem x hj))
        (fun j hj => hok j (List.mem_cons_of_mem x hj)) hmem2 hL2

/-- C7: when a new story's analysis call fails after retry exhaustion,
the failure is contained within that story's turn: the cycle still
records the story's base row with `embedded = false` and a null analysis
version, appends an entry naming the story id to the error ring, and
goes on to process every candidate — the summary classifications add up
to the full candidate count rather than the cycle aborting. -/
theorem c7_analysis_failure_contained (cenv : CycleEnv) (cfg : Config) (s : SysState)
    (i : Nat) (it : HNItem) (msg : Str)
    (hmem : i ∈ cycleCandidates cenv cfg)
    (hcons : envConsistentB cenv (cycleCandidates cenv cfg) = true)
    (hothers : othersOkB cenv (cycleCandidates cenv cfg) i = true)
    (hcount : storyCount s.db i = 0)
    (hf : (cenv.story i).fetched = some it)
    (ht : it.type = str "story")
    (hr : isRecent cfg cenv.now it.time = true)
    (htxt : (storyTextForAnalysis it).length > 0)
    (ha : (cenv.story i).analysis = Except.error msg) :
    (∃ r ∈ (runIngestionCycle cenv cfg s).2.db.stories,
       r.hnId = i ∧ r.embedded = false ∧ r.analysisVersion = none) ∧
    analysisErrEntry i msg ∈ (runIngestionCycle cenv cfg s).2.ws.errors ∧
    (runIngestionCycle cenv cfg s).1.ingested + (runIngestionCycle cenv cfg s).1.skipped +
      (runIngestionCycle cenv cfg s).1.tooOld + (runIngestionCycle cenv cfg s).1.errors =
      (cycleCandidates cenv cfg).length := by
  have hid0 : it.id = i := envConsistentB_spec hcons i hmem it hf
  have hmain := cycleFold_c7 cenv cfg i it msg hf hid0 ht hr htxt ha
    (cycleCandidates cenv cfg)
    { s := setCycleProgress s (cycleCandidates cenv cfg).length, ingested := 0, skipped := 0,
      tooOld := 0, errors := 0, commentsProcessed := 0, newComments := 0 }
    (envConsistentB_spec hcons) (othersOkB_spec hothers) hmem hcount
  have hsum := cycleFold_counts_sum cenv cfg (cycleCandidates cenv cfg)
    { s := setCycleProgress s (cycleCandidates cenv cfg).length, ingested := 0, skipped := 0,
      tooOld := 0, errors := 0, commentsProcessed := 0, newComments := 0 }
  unfold runIngestionCycle
  dsimp only
  dsimp only at hsum
  exact ⟨hmain.1, hmain.2, by omega⟩

theorem c7_analysis_failure_contained_witness :
    storyCount emptyState.db 101 = 0 ∧
    (cenvFail101.story 101).analysis = Except.error (str "boom") ∧
    (∃ r ∈ (runIngestionCycle cenvFail101 cfg0 emptyState).2.db.stories,
       r.hnId = 101 ∧ r.embedded = false ∧ r.analysisVersion = none) ∧
    analysisErrEntry 101 (str "boom") ∈
      (runIngestionCycle cenvFail101 cfg0 emptyState).2.ws.errors :=
  ⟨rfl, rfl,
   (c7_analysis_failure_contained cenvFail101 cfg0 emptyState 101 item101 (str "boom")
     (by decide) (by decide) (by decide) rfl rfl rfl (by decide) (by decide) rfl).1,
   (c7_analysis_failure_contained cenvFail101 cfg0 emptyState 101 item101 (str "boom")
     (by decide) (by decide) (by decide) rfl rfl rfl (by decide) (by decide) rfl).2.1⟩

theorem regenStoryStep_c1 (renv : RegenEnv) (version : Str) (staleIds : List Nat)
    (acc : Nat × List Str × SysState) (story : StoryRec)
    (hsid : story.hnId ∈ staleIds)
    (h1 : acc.2.2.db.stories.all recAnalyzedInvS = true)
    (h2 : ∀ r ∈ acc.2.2.db.stories, r.hnId ∈ staleIds → r.embedded = true) :
    ((regenStoryStep renv version acc story).2.2.db.stories.all recAnalyzedInvS = true) ∧
    (∀ r ∈ (regenStoryStep renv version acc story).2.2.db.stories,
       r.hnId ∈ staleIds → r.embedded = true) ∧
    (regenStoryStep renv version acc story).2.2.db.comments = acc.2.2.db.comments := by
  unfold regenStoryStep
  cases renv.storyA story.hnId with
  | error m => exact ⟨h1, h2, rfl⟩
  | ok a =>
    cases renv.storyE story.hnId with
    | error m => exact ⟨h1, h2, rfl⟩
    | ok emb =>
      refine ⟨?_, ?_, rfl⟩
      · rw [List.all_eq_true] at h1 ⊢
        intro x hx
        simp only [addChromaStory_db, updateStoryDb_stories] at hx
        rcases List.mem_map.mp hx with ⟨r, hr, rfl⟩
        by_cases hk : (r.hnId == story.hnId) = true
        · rw [if_pos hk]
          have hremb : r.embedded = true := h2 r hr (by rw [show r.hnId = story.hnId by simpa using hk]; exact hsid)
          unfold recAnalyzedInvS
          show (r.embedded == (some version).isSome) = true
          rw [hremb]
          rfl
        · rw [if_neg hk]
          exact h1 r hr
      · intro x hx
        simp only [addChromaStory_db, updateStoryDb_stories] at hx
        rcases List.mem_map.mp hx with ⟨r, hr, rfl⟩
        by_cases hk : (r.hnId == story.hnId) = true
        · rw [if_pos hk]
          intro _
          show r.embedded = true
          exact h2 r hr (by rw [show r.hnId = story.hnId by simpa using hk]; exact hsid)
        · rw [if_neg hk]
          exact h2 r hr

theorem regenStoryFold_c1 (renv : RegenEnv) (version : Str) (staleIds : List Nat) :
    ∀ (sel : List StoryRec) (acc : Nat × List Str × SysState),
    (∀ r ∈ sel, r.hnId ∈ staleIds) →
    acc.2.2.db.stories.all recAnalyzedInvS = true →
    (∀ r ∈ acc.2.2.db.stories, r.hnId ∈ staleIds → r.embedded = true) →
    ((sel.foldl (regenStoryStep renv version) acc).2.2.db.stories.all recAnalyzedInvS = true) ∧
    (sel.foldl (regenStoryStep renv version) acc).2.2.db.comments = acc.2.2.db.comments := by
  intro sel
  induction sel with
  | nil => intro acc _ h1 _; exact ⟨h1, rfl⟩
  | cons x rest ih =>
    intro acc hsel h1 h2
    rw [List.foldl_cons]
    obtain ⟨g1, g2, g3⟩ := regenStoryStep_c1 renv version staleIds acc x
      (hsel x (List.mem_cons_self x rest)) h1 h2
    obtain ⟨f1, f2⟩ := ih (regenStoryStep renv version acc x)
      (fun r hr => hsel r (List.mem_cons_of_mem x hr)) g1 g2
    exact ⟨f1, f2.trans g3⟩

theorem regenCommentStep_c1 (renv : RegenEnv) (version : Str) (staleIds : List Nat)
    (acc : Nat × List Str × SysState) (c : CommentRec)
    (hsid : c.hnId ∈ staleIds)
    (h1 : acc.2.2.db.comments.all recAnalyzedInvC = true)
    (h2 : ∀ r ∈ acc.2.2.db.comments, r.hnId ∈ staleIds → r.embedded = true) :
    ((regenCommentStep renv version acc c).2.2.db.comments.all recAnalyzedInvC = true) ∧
    (∀ r ∈ (regenCommentStep renv version acc c).2.2.db.comments,
       r.hnId ∈ staleIds → r.embedded = true) ∧
    (regenCommentStep renv version acc c).2.2.db.stories = acc.2.2.db.stories := by
  unfold regenCommentStep
  by_cases hlen : (stripHtml c.text).length ≤ 30
  · rw [if_pos hlen]; exact ⟨h1, h2, rfl⟩
  · rw [if_neg hlen]
    cases renv.commA c.hnId with
    | error m => exact ⟨h1, h2, rfl⟩
    | ok a =>
      cases renv.commE c.hnId with
      | error m => exact ⟨h1, h2, rfl⟩
      | ok emb =>
        refine ⟨?_, ?_, rfl⟩
        · rw [List.all_eq_true] at h1 ⊢
          intro x hx
          simp only [addChromaComment_db, updateCommentDb_comments] at hx
          rcases List.mem_map.mp hx with ⟨r, hr, rfl⟩
          by_cases hk : (r.hnId == c.hnId) = true
          · rw [if_pos hk]
            have hremb : r.embedded = true := h2 r hr (by rw [show r.hnId = c.hnId by simpa using hk]; exact hsid)
            unfold recAnalyzedInvC
            show (r.embedded == (some version).isSome) = true
            rw [hremb]
            rfl
          · rw [if_neg hk]
            exact h1 r hr
        · intro x hx
          simp only [addChromaComment_db, updateCommentDb_comments] at hx
          rcases List.mem_map.mp hx with ⟨r, hr, rfl⟩
          by_cases hk : (r.hnId == c.hnId) = true
          · rw [if_pos hk]
            intro _
            show r.embedded = true
            exact h2 r hr (by rw [show r.hnId = c.hnId by simpa using hk]; exact hsid)
          · rw [if_neg hk]
            exact h2 r hr

theorem regenCommentFold_c1 (renv : RegenEnv) (version : Str) (staleIds : List Nat) :
    ∀ (sel : List CommentRec) (acc : Nat × List Str × SysState),
    (∀ r ∈ sel, r.hnId ∈ staleIds) →
    acc.2.2.db.comments.all recAnalyzedInvC = true →
    (∀ r ∈ acc.2.2.db.comments, r.hnId ∈ staleIds → r.embedded = true) →
    ((sel.foldl (regenCommentStep renv version) acc).2.2.db.comments.all recAnalyzedInvC = true) ∧
    (sel.foldl (regenCommentStep renv version) acc).2.2.db.stories = acc.2.2.db.stories := by
  intro sel
  induction sel with
  | nil => intro acc _ h1 _; exact ⟨h1, rfl⟩
  | cons x rest ih =>
    intro acc hsel h1 h2
    rw [List.foldl_cons]
    obtain ⟨g1, g2, g3⟩ := regenCommentStep_c1 renv version staleIds acc x
      (hsel x (List.mem_cons_self x rest)) h1 h2
    obtain ⟨f1, f2⟩ := ih (regenCommentStep renv version acc x)
      (fun r hr => hsel r (List.mem_cons_of_mem x hr)) g1 g2
    exact ⟨f1, f2.trans g3⟩

theorem staleStoryIds_embedded_init (o : RegenOptions) (target : Str) (db : DBState)
    (hnd : (db.stories.map (fun r => r.hnId)).Nodup) :
    ∀ r ∈ db.stories,
      r.hnId ∈ (selectStaleStories o target db).map (fun r => r.hnId) → r.embedded = true := by
  intro r hr hid
  rcases List.mem_map.mp hid with ⟨r2, hr2, heq⟩
  obtain ⟨hr2mem, hstale⟩ := selectStaleStories_spec o target db r2 hr2
  have hreq : r = r2 := List.inj_on_of_nodup_map hnd hr hr2mem heq.symm
  subst hreq
  unfold storyStale at hstale
  rw [Bool.and_eq_true, Bool.and_eq_true] at hstale
  exact hstale.1.1

theorem staleCommentIds_embedded_init (o : RegenOptions) (target : Str) (db : DBState)
    (hnd : (db.comments.map (fun r => r.hnId)).Nodup) :
    ∀ r ∈ db.comments,
      r.hnId ∈ (selectStaleComments o target db).map (fun r => r.hnId) → r.embedded = true := by
  intro r hr hid
  rcases List.mem_map.mp hid with ⟨r2, hr2, heq⟩
  obtain ⟨hr2mem, hstale⟩ := selectStaleComments_spec o target db r2 hr2
  have hreq : r = r2 := List.inj_on_of_nodup_map hnd hr hr2mem heq.symm
  subst hreq
  unfold commentStale at hstale
  rw [Bool.and_eq_true, Bool.and_eq_true] at hstale
  exact hstale.1.1

theorem analyzedInv_runRegeneration (o : RegenOptions) (renv : RegenEnv) (s : SysState)
    (hinv : analyzedInvB s = true) (hnd : nodupIds s) :
    analyzedInvB (runRegeneration o renv s).2 = true := by
  obtain ⟨hndS, hndC⟩ := hnd
  unfold analyzedInvB at hinv ⊢
  rw [Bool.and_eq_true] at hinv
  obtain ⟨hS, hC⟩ := hinv
  simp only [runRegeneration]
  by_cases hc1 : (o.rtype == str "all" || o.rtype == str "stories") = true
  · rw [if_pos hc1]
    have hst := regenStoryFold_c1 renv (resolveVersion o)
      ((selectStaleStories o (resolveVersion o) s.db).map (fun r => r.hnId))
      (selectStaleStories o (resolveVersion o) s.db) ((0 : Nat), ([] : List Str), s)
      (fun r hr => List.mem_map_of_mem _ hr) hS
      (staleStoryIds_embedded_init o (resolveVersion o) s.db hndS)
    by_cases hc2 : (o.rtype == str "all" || o.rtype == str "comments") = true
    · rw [if_pos hc2]
      have h1c : ((selectStaleStories o (resolveVersion o) s.db).foldl
          (regenStoryStep renv (resolveVersion o))
          ((0 : Nat), ([] : List Str), s)).2.2.db.comments.all recAnalyzedInvC = true := by
        rw [hst.2]; exact hC
      have hndC2 : (((selectStaleStories o (resolveVersion o) s.db).foldl
          (regenStoryStep renv (resolveVersion o))
          ((0 : Nat), ([] : List Str), s)).2.2.db.comments.map (fun r => r.hnId)).Nodup := by
        rw [hst.2]; exact hndC
      have hcm := regenCommentFold_c1 renv (resolveVersion o)
        ((selectStaleComments o (resolveVersion o)
            ((selectStaleStories o (resolveVersion o) s.db).foldl
              (regenStoryStep renv (resolveVersion o))
              ((0 : Nat), ([] : List Str), s)).2.2.db).map (fun r => r.hnId))
        (selectStaleComments o (resolveVersion o)
            ((selectStaleStories o (resolveVersion o) s.db).foldl
              (regenStoryStep renv (resolveVersion o))
              ((0 : Nat), ([] : List Str), s)).2.2.db)
        ((0 : Nat),
          ((selectStaleStories o (resolveVersion o) s.db).foldl
            (regenStoryStep renv (resolveVersion o)) ((0 : Nat), ([] : List Str), s)).2.1,
          ((selectStaleStories o (resolveVersion o) s.db).foldl
            (regenStoryStep renv (resolveVersion o)) ((0 : Nat), ([] : List Str), s)).2.2)
        (fun r hr => List.mem_map_of_mem _ hr) h1c
        (staleCommentIds_embedded_init o (resolveVersion o) _ hndC2)
      rw [Bool.and_eq_true]
      refine ⟨?_, hcm.1⟩
      rw [hcm.2]
      exact hst.1
    · rw [if_neg hc2]
      rw [Bool.and_eq_true]
      refine ⟨hst.1, ?_⟩
      rw [hst.2]
      exact hC
  · rw [if_neg hc1]
    by_cases hc2 : (o.rtype == str "all" || o.rtype == str "comments") = true
    · rw [if_pos hc2]
      have hcm := regenCommentFold_c1 renv (resolveVersion o)
        ((selectStaleComments o (resolveVersion o) s.db).map (fun r => r.hnId))
        (selectStaleComments o (resolveVersion o) s.db)
        ((0 : Nat), ([] : List Str), s)
        (fun r hr => List.mem_map_of_mem _ hr) hC
        (staleCommentIds_embedded_init o (resolveVersion o) s.db hndC)
      rw [Bool.and_eq_true]
      refine ⟨?_, hcm.1⟩
      rw [hcm.2]
      exact hS
    · rw [if_neg hc2]
      rw [Bool.and_eq_true]
      exact ⟨hS, hC⟩

/-- C1 counterexample: the regeneration path rewrites `analysisVersion`
in an update that does not write `embedded`.  On a store holding an
embedded story analyzed at version "5", a regeneration run targeting
version "6" leaves exactly the `regenStoryUpdate` image of that row:
its `analysisVersion` has changed from `some "5"` to `some "6"` while
the update leaves `embedded` untouched — refuting the claim that the
two fields "are always written together in a single update, never one
without the other". -/
theorem c1_counterexample :
    staleRec101.embedded = true ∧
    staleRec101.analysisVersion = some (str "5") ∧
    (runRegeneration regenOpts0 renv0 stateStale).2.db.stories =
      [regenStoryUpdate sAnalysis0 (str "6") now0 staleRec101] ∧
    (regenStoryUpdate sAnalysis0 (str "6") now0 staleRec101).analysisVersion = some (str "6") ∧
    (regenStoryUpdate sAnalysis0 (str "6") now0 staleRec101).embedded = staleRec101.embedded :=
  ⟨rfl, rfl, rfl, rfl, rfl⟩

/-- C1 (amended): the record-level equivalence `embedded == true` iff
`analysisVersion` non-null does hold after every ingestion cycle and
every regeneration run, provided it held before and source ids are
unique per table.  Ingestion writes the two fields together
(`storyAnalysisUpdate` / `commentAnalysisUpdate` set both, the create
payloads set neither, volatile refreshes touch neither); regeneration
writes `analysisVersion` alone, but only on rows selected with
`embedded = true`, so the equivalence is preserved even though the
fields are not written together there. -/
theorem c1_analyzed_invariant (op : SysOp) (s : SysState)
    (hinv : analyzedInvB s = true) (hnd : nodupIds s) :
    analyzedInvB (applySysOp op s) = true := by
  cases op with
  | ingest cenv cfg =>
    exact dbInv_runIngestionCycle recAnalyzedInvS recAnalyzedInvC cenv cfg s
      (fun _ => rfl)
      (fun _ _ _ _ => rfl)
      (fun _ _ h => h)
      (fun _ _ => rfl)
      (fun _ _ _ _ => rfl)
      hinv
  | regen o renv =>
    exact analyzedInv_runRegeneration o renv s hinv hnd

/-- C1 witness: the amended invariant applied to the concrete
regeneration of the version-"5" store. -/
theorem c1_analyzed_invariant_witness :
    analyzedInvB stateStale = true ∧ nodupIds stateStale ∧
    analyzedInvB (applySysOp (SysOp.regen regenOpts0 renv0) stateStale) = true := by
  have hnd : nodupIds stateStale := ⟨by decide, by decide⟩
  exact ⟨rfl, hnd, c1_analyzed_invariant (SysOp.regen regenOpts0 renv0) stateStale rfl hnd⟩
